import Mathlib

/-!
Verification of the balance-chart curve synthesis and progressive-reveal engine
of this repository (src/chart_page/chart_ui.rs, together with the reveal-cursor
state owned by src/page_handler/ui_handler.rs).

Modelling conventions:
* calendar dates (chrono NaiveDate) are integers counting days since 1970-01-01;
  adding Duration::days(1) is integer successor, signed_duration_since is
  integer subtraction;
* f64 balance arithmetic is modelled exactly over the rationals;
* the source render loop (chart_ui.rs lines 183-272) is a step function driven
  by explicit fuel; a lemma below shows the fuel chosen by the top-level
  function suffices for every well-formed ledger, so the embedding computes the
  same final state as the source loop;
* Rust index-out-of-range panics and unwrap panics are modelled by total
  defaults (List.getD and friends); the well-formedness hypotheses used by the
  theorems keep every access in range, matching the panic-free executions of
  the source.
-/

/-- One source row of the ledger snapshot: the parsed transaction date of
all_txs[i][0] (chart_ui.rs line 124) together with the parsed per-method
running balances of all_balance[i] (chart_ui.rs line 200). -/
structure TxRow where
  date : ℤ
  balances : List ℚ
deriving DecidableEq

/-- Default row used to totalize out-of-range snapshot indexing. -/
def defaultRow : TxRow := ⟨0, []⟩

/-- chart_ui.rs line 188: NaiveDate::from_ymd_opt(2040, 1, 1), the placeholder
next_date used when no further row exists, as days since 1970-01-01. -/
def date_2040_01_01 : ℤ := 25567

/-- The mutable state of the render loop of chart_ui (chart_ui.rs lines
101-182): the per-method point vectors, the balances of the last emitted day,
the extrema trackers, the x-axis date labels (as dates), the x coordinate, the
simulated day, the same-date merge flag, the source-row pointer and the
remaining per-cycle day budget. -/
structure ChartState where
  datasets : List (List (ℚ × ℚ))
  last_balances : List ℚ
  lowest_balance : ℚ
  highest_balance : ℚ
  date_labels : List ℤ
  current_axis : ℚ
  checking_date : ℤ
  to_add_again : Bool
  data_num : ℕ
  to_loop : Option ℚ
deriving DecidableEq

/-- Accumulator of the per-method inner loop of a transaction day:
(datasets, rebuilt last_balances, lowest_balance, highest_balance). -/
abbrev MethodAcc := List (List (ℚ × ℚ)) × List ℚ × ℚ × ℚ

/-- chart_ui.rs lines 202-211: the extrema update of one method slot; only
activated methods move the tracked lowest and highest balance. -/
def extrema_step (activated : ℕ → Bool) (current_balances : List ℚ)
    (lowest_balance highest_balance : ℚ) (method_index : ℕ) : ℚ × ℚ :=
  let current_balance := current_balances.getD method_index 0
  if activated method_index then
    if current_balance > highest_balance then (lowest_balance, current_balance)
    else if current_balance < lowest_balance then (current_balance, highest_balance)
    else (lowest_balance, highest_balance)
  else (lowest_balance, highest_balance)

/-- chart_ui.rs lines 198-234: processing of one method slot on a transaction
day: extrema tracking for activated methods, then either merging into the last
emitted point (same-date coalescing, to_add_again) or appending a new point at
the current axis position. -/
def method_step (activated : ℕ → Bool) (current_balances : List ℚ)
    (to_add_again : Bool) (current_axis : ℚ) (acc : MethodAcc) (method_index : ℕ) :
    MethodAcc :=
  let datasets := acc.1
  let last_balances := acc.2.1
  let lowest_balance := acc.2.2.1
  let highest_balance := acc.2.2.2
  let current_balance := current_balances.getD method_index 0
  let extrema :=
    extrema_step activated current_balances lowest_balance highest_balance method_index
  if to_add_again then
    let last_point := (datasets.getD method_index []).getLastD (0, 0)
    let datasets2 := datasets.set method_index
      ((datasets.getD method_index []).dropLast ++ [(last_point.1, current_balance)])
    (datasets2, last_balances ++ [current_balance], extrema.1, extrema.2)
  else
    let datasets2 :=
      if method_index < datasets.length then
        datasets.set method_index
          ((datasets.getD method_index []) ++ [(current_axis, current_balance)])
      else datasets ++ [[(current_axis, current_balance)]]
    (datasets2, last_balances ++ [current_balance], extrema.1, extrema.2)

/-- The inner loop of a transaction day (chart_ui.rs line 198): method_step
folded over all method indices in order. -/
def method_fold (activated : ℕ → Bool) (current_balances : List ℚ) (to_add_again : Bool)
    (current_axis : ℚ) (method_count : ℕ) (acc : MethodAcc) : MethodAcc :=
  (List.range method_count).foldl
    (method_step activated current_balances to_add_again current_axis) acc

/-- chart_ui.rs lines 184-246: one transaction-day iteration body. The
balances of row data_num are folded through every method slot (rebuilding
last_balances from empty, line 196), then the axis and simulated day advance
unless the next row shares the same date, and the row pointer advances. -/
def chart_tx_day (all_txs : List TxRow) (method_count : ℕ) (activated : ℕ → Bool)
    (s : ChartState) : ChartState :=
  let current_balances := (all_txs.getD s.data_num defaultRow).balances
  let next_date :=
    if all_txs.length > s.data_num + 1 then (all_txs.getD (s.data_num + 1) defaultRow).date
    else date_2040_01_01
  let acc := method_fold activated current_balances s.to_add_again s.current_axis
    method_count (s.datasets, [], s.lowest_balance, s.highest_balance)
  if next_date = s.checking_date then
    { s with datasets := acc.1, last_balances := acc.2.1, lowest_balance := acc.2.2.1,
             highest_balance := acc.2.2.2, to_add_again := true, data_num := s.data_num + 1 }
  else
    { s with datasets := acc.1, last_balances := acc.2.1, lowest_balance := acc.2.2.1,
             highest_balance := acc.2.2.2, to_add_again := false,
             current_axis := s.current_axis + 1, checking_date := s.checking_date + 1,
             data_num := s.data_num + 1 }

/-- One method slot of a carry-forward day (chart_ui.rs lines 249-252). -/
def carry_step (current_axis : ℚ) (last_balances : List ℚ)
    (ds : List (List (ℚ × ℚ))) (method_index : ℕ) : List (List (ℚ × ℚ)) :=
  ds.set method_index
    ((ds.getD method_index []) ++ [(current_axis, last_balances.getD method_index 0)])

/-- The inner loop of a carry-forward day: carry_step over all methods. -/
def carry_fold (current_axis : ℚ) (last_balances : List ℚ) (method_count : ℕ)
    (ds : List (List (ℚ × ℚ))) : List (List (ℚ × ℚ)) :=
  (List.range method_count).foldl (carry_step current_axis last_balances) ds

/-- chart_ui.rs lines 247-255: a day with no transaction re-emits the last
used balance for every method and advances the axis and the simulated day. -/
def chart_carry_day (method_count : ℕ) (s : ChartState) : ChartState :=
  { s with
      datasets := carry_fold s.current_axis s.last_balances method_count s.datasets,
      current_axis := s.current_axis + 1, checking_date := s.checking_date + 1 }

/-- chart_ui.rs lines 257-267: per-cycle budget bookkeeping; when the budget
for this cycle is exhausted the last date label is replaced by the current
simulated day and the loop breaks. -/
def chart_budget (s : ChartState) : ChartState × Bool :=
  if s.to_add_again = false then
    match s.to_loop with
    | some val =>
      if val - 1 ≤ 0 then
        ({ s with date_labels := s.date_labels.dropLast ++ [s.checking_date] }, true)
      else ({ s with to_loop := some (val - 1) }, false)
    | none => (s, false)
  else (s, false)

/-- chart_ui.rs lines 184-255: the day dispatch of one loop iteration: a
transaction day when the simulated day appears in all_dates, otherwise a
carry-forward day. -/
def chart_iter_body (all_txs : List TxRow) (all_dates : List ℤ) (method_count : ℕ)
    (activated : ℕ → Bool) (s : ChartState) : ChartState :=
  if all_dates.contains s.checking_date then
    chart_tx_day all_txs method_count activated s
  else chart_carry_day method_count s

/-- chart_ui.rs lines 183-271: one full iteration of the render loop, returning
the new state and whether the loop breaks after this iteration (budget
exhaustion first, then the final-date check of lines 269-271). -/
def chart_iter (all_txs : List TxRow) (all_dates : List ℤ) (method_count : ℕ)
    (activated : ℕ → Bool) (final_date : ℤ) (s : ChartState) : ChartState × Bool :=
  let b := chart_budget (chart_iter_body all_txs all_dates method_count activated s)
  if b.2 then (b.1, true)
  else if b.1.checking_date ≥ final_date + 1 then (b.1, true) else (b.1, false)

/-- The source loop (chart_ui.rs line 183) driven by explicit fuel; none means
the fuel was insufficient (never the case for well-formed ledgers, see the
termination lemma). -/
def chart_loop (all_txs : List TxRow) (all_dates : List ℤ) (method_count : ℕ)
    (activated : ℕ → Bool) (final_date : ℤ) : ℕ → ChartState → Option ChartState
  | 0, _ => none
  | fuel + 1, s =>
    let r := chart_iter all_txs all_dates method_count activated final_date s
    if r.2 = true then some r.1
    else chart_loop all_txs all_dates method_count activated final_date fuel r.1

/-- n consecutive iterations of the render loop of chart_ui.rs line 183,
tracking the state only: used to follow a run of same-date source rows across
several iterations. -/
def chart_iter_n (all_txs : List TxRow) (all_dates : List ℤ) (method_count : ℕ)
    (activated : ℕ → Bool) (final_date : ℤ) : ℕ → ChartState → ChartState
  | 0, s => s
  | n + 1, s =>
    chart_iter_n all_txs all_dates method_count activated final_date n
      (chart_iter all_txs all_dates method_count activated final_date s).1

/-- chart_ui.rs lines 136-152: the per-cycle animation step size selected from
total_loop by the tier ladder. -/
def render_size (total_loop : ℚ) : ℚ :=
  if total_loop > 4000 then total_loop * (7/10) / 100
  else if total_loop > 2000 then total_loop * (5/10) / 100
  else if total_loop > 1000 then total_loop * (4/10) / 100
  else if total_loop > 500 then total_loop * (3/10) / 100
  else if total_loop > 360 then total_loop * (4/10) / 100
  else if total_loop > 200 then total_loop * (2/10) / 100
  else if total_loop < 50 then total_loop * 2 / 100
  else 1

/-- chart_ui.rs lines 156-168: the reveal-cursor update performed once per
invocation before the render loop. -/
def loop_remaining_update (total_loop rs : ℚ) : Option ℚ → Option ℚ
  | none => none
  | some val =>
    if val = 0 then
      if total_loop > rs then some (total_loop - rs) else none
    else if val - rs > 0 then some (val - rs) else none

/-- chart_ui.rs line 124: the first transaction date of the snapshot. -/
def chart_first_date (all_txs : List TxRow) : ℤ := (all_txs.getD 0 defaultRow).date

/-- chart_ui.rs lines 127-128: the last transaction date of the snapshot. -/
def chart_final_date (all_txs : List TxRow) : ℤ :=
  (all_txs.getD (all_txs.length - 1) defaultRow).date

/-- chart_ui.rs line 131: total_loop, the day span of the snapshot. -/
def chart_total_loop (all_txs : List TxRow) : ℚ :=
  ((chart_final_date all_txs - chart_first_date all_txs : ℤ) : ℚ)

/-- The state entering the render loop for a non-empty snapshot
(chart_ui.rs lines 101-182). -/
def chart_init_state (all_txs : List TxRow) (to_loop : Option ℚ) : ChartState :=
  { datasets := [], last_balances := [], lowest_balance := 0, highest_balance := 0,
    date_labels := [chart_first_date all_txs, chart_final_date all_txs],
    current_axis := 0, checking_date := chart_first_date all_txs,
    to_add_again := false, data_num := 0, to_loop := to_loop }

/-- Fuel that is shown below to suffice for the render loop of every
well-formed snapshot. -/
def chart_fuel (all_txs : List TxRow) : ℕ :=
  (chart_final_date all_txs + 1 - chart_first_date all_txs).toNat + all_txs.length + 1

/-- The state of the render loop after the draw, for a non-empty snapshot:
cursor update (lines 156-168), budget derivation (line 171), then the loop. -/
def chart_loop_state (all_txs : List TxRow) (all_dates : List ℤ) (method_count : ℕ)
    (activated : ℕ → Bool) (loop_remaining : Option ℚ) : ChartState :=
  let total_loop := chart_total_loop all_txs
  let lr := loop_remaining_update total_loop (render_size total_loop) loop_remaining
  let s0 := chart_init_state all_txs (lr.map (fun val => total_loop - val))
  (chart_loop all_txs all_dates method_count activated (chart_final_date all_txs)
    (chart_fuel all_txs) s0).getD s0

/-- chart_ui.rs line 278: pad the highest balance by 10 percent. -/
def pad_highest (highest_balance : ℚ) : ℚ := highest_balance + highest_balance * 10 / 100

/-- chart_ui.rs line 279: pad the lowest balance by 10 percent. -/
def pad_lowest (lowest_balance : ℚ) : ℚ := lowest_balance - lowest_balance * 10 / 100

/-- chart_ui.rs lines 281-291: the 11 y-axis gridline label values, the padded
low then ten successive additions of diff. -/
def y_axis_labels (lowest highest : ℚ) : List ℚ :=
  let diff := (highest - lowest) / 10
  ((List.range 10).foldl (fun acc _ => (acc.1 ++ [acc.2 + diff], acc.2 + diff))
    ([lowest], lowest)).1

/-- Everything chart_ui produces for the rendering layer, plus the rewritten
reveal cursor. -/
structure ChartOutput where
  datasets : List (List (ℚ × ℚ))
  lowest_balance : ℚ
  highest_balance : ℚ
  y_labels : List ℚ
  date_labels : List ℤ
  current_axis : ℚ
  loop_remaining : Option ℚ
deriving DecidableEq

/-- The curve-synthesis core of chart_ui (chart_ui.rs lines 98-291): the empty
snapshot is seeded with one (0,0) point per method and disables animation
(lines 104-110 and 273-275); a non-empty snapshot runs the render loop; both
paths then apply the 10 percent padding and derive the axis labels. -/
def chart_ui_core (all_txs : List TxRow) (all_dates : List ℤ) (method_count : ℕ)
    (activated : ℕ → Bool) (loop_remaining : Option ℚ) : ChartOutput :=
  if all_txs.isEmpty then
    { datasets := List.replicate method_count [(0, 0)],
      lowest_balance := pad_lowest 0, highest_balance := pad_highest 0,
      y_labels := y_axis_labels (pad_lowest 0) (pad_highest 0),
      date_labels := [], current_axis := 0, loop_remaining := none }
  else
    let total_loop := chart_total_loop all_txs
    let lr := loop_remaining_update total_loop (render_size total_loop) loop_remaining
    let s1 := chart_loop_state all_txs all_dates method_count activated loop_remaining
    { datasets := s1.datasets,
      lowest_balance := pad_lowest s1.lowest_balance,
      highest_balance := pad_highest s1.highest_balance,
      y_labels := y_axis_labels (pad_lowest s1.lowest_balance) (pad_highest s1.highest_balance),
      date_labels := s1.date_labels, current_axis := s1.current_axis,
      loop_remaining := lr }

/-- page_handler/ui_handler.rs line 162: the reveal cursor as initialized by
the host when the application starts. -/
def chart_index_init : Option ℚ := none

/-- Modelled from the spec: selecting a different chart scope (mode, month or
year) resets the reveal cursor to a fresh Some(0) countdown (spec section 4.5).
The key-handler code that carries the cursor is not part of this source
snapshot (src/key_checker/key_handler.rs here predates the cursor plumbing:
its InputKeyHandler has no cursor field), so the reset value is modelled from
the specification text. -/
def scope_change_cursor_reset : Option ℚ := some 0

/-- The per-cycle step size exactly as claim C5 words the tier table, for
comparison with render_size. -/
def render_size_spec (total_days : ℚ) : ℚ :=
  if 4000 < total_days then total_days * (7/1000)
  else if 2000 < total_days ∧ total_days ≤ 4000 then total_days * (5/1000)
  else if 1000 < total_days ∧ total_days ≤ 2000 then total_days * (4/1000)
  else if 500 < total_days ∧ total_days ≤ 1000 then total_days * (3/1000)
  else if 360 < total_days ∧ total_days ≤ 500 then total_days * (4/1000)
  else if 200 < total_days ∧ total_days ≤ 360 then total_days * (2/1000)
  else if total_days < 50 then total_days * (2/100)
  else 1

/-- The reveal-cursor update rule exactly as claim C3 words it, for comparison
with loop_remaining_update. -/
def cursor_update_spec (total_days step : ℚ) : Option ℚ → Option ℚ
  | none => none
  | some v =>
    if v = 0 then
      if total_days ≤ step then none else some (total_days - step)
    else if v - step > 0 then some (v - step) else none

/-- The date of snapshot row j (0 when out of range). -/
def tx_date (all_txs : List TxRow) (j : ℕ) : ℤ := (all_txs.getD j defaultRow).date

/-- The snapshot rows are ordered by date (spec section 6: ordered-by-date
rows; equal consecutive dates are allowed and coalesced). -/
def ledger_sorted (all_txs : List TxRow) : Prop :=
  all_txs.Chain' (fun a b => a.date ≤ b.date)

/-- Termination measure of the render loop: remaining days to walk plus
remaining snapshot rows to consume. -/
def walk_measure (all_txs : List TxRow) (final_date : ℤ) (s : ChartState) : ℕ :=
  (final_date + 1 - s.checking_date).toNat + (all_txs.length - s.data_num)

/-- Invariant of the produced data: the per-method point vectors stay
index-aligned and of equal length, the last emitted point of every method
carries the value recorded in last_balances, the extrema always contain zero,
and every emitted value of an activated method lies between them. -/
structure DataInv (method_count : ℕ) (activated : ℕ → Bool) (s : ChartState) : Prop where
  shape : (s.datasets = [] ∧ s.to_add_again = false) ∨
    (s.datasets.length = method_count ∧
      ∃ L, 1 ≤ L ∧ ∀ i, i < method_count → (s.datasets.getD i []).length = L)
  last_link : s.datasets ≠ [] → ∀ i, i < method_count →
    ∃ p : ℚ × ℚ, (s.datasets.getD i []).getLast? = some p ∧ p.2 = s.last_balances.getD i 0
  lo_nonpos : s.lowest_balance ≤ 0
  hi_nonneg : 0 ≤ s.highest_balance
  ranged : ∀ i, i < method_count → activated i = true → ∀ p ∈ s.datasets.getD i [],
    s.lowest_balance ≤ p.2 ∧ p.2 ≤ s.highest_balance

/-- Invariant of the day walk: the row pointer has consumed exactly the rows
dated before the simulated day (up to the merge flag), the pending row is not
in the past, and the simulated day has not passed the final date. -/
structure WalkInv (all_txs : List TxRow) (s : ChartState) : Prop where
  data_le : s.data_num ≤ all_txs.length
  consumed_le : ∀ j, j < s.data_num → tx_date all_txs j ≤ s.checking_date
  pending_ge : s.data_num < all_txs.length → s.checking_date ≤ tx_date all_txs s.data_num
  coalesce_eq : s.to_add_again = true →
    s.data_num < all_txs.length ∧ tx_date all_txs s.data_num = s.checking_date
  consumed_lt : s.to_add_again = false → ∀ j, j < s.data_num →
    tx_date all_txs j < s.checking_date

/-! Helper lemmas about list indexing. -/

theorem getD_set_self {α : Type} (l : List α) (n : ℕ) (a d : α) (h : n < l.length) :
    (l.set n a).getD n d = a := by
  simp [List.getD_eq_getElem?_getD, List.getElem?_set_self', h]

theorem getD_set_ne {α : Type} (l : List α) (m n : ℕ) (a d : α) (h : m ≠ n) :
    (l.set m a).getD n d = l.getD n d := by
  simp [List.getD_eq_getElem?_getD, List.getElem?_set_ne h]

theorem getD_map_range {α : Type} (f : ℕ → α) (K i : ℕ) (h : i < K) (d : α) :
    ((List.range K).map f).getD i d = f i := by
  simp [List.getD_eq_getElem?_getD, List.getElem?_map, List.getElem?_range h]

theorem getD_mem {α : Type} (l : List α) (j : ℕ) (d : α) (h : j < l.length) :
    l.getD j d ∈ l := by
  rw [List.getD_eq_getElem?_getD, List.getElem?_eq_getElem h]
  exact List.getElem_mem h

/-! Unfolding lemmas for the per-method folds. -/

theorem method_fold_zero (act : ℕ → Bool) (cbs : List ℚ) (flag : Bool) (axis : ℚ)
    (acc : MethodAcc) : method_fold act cbs flag axis 0 acc = acc := rfl

theorem method_fold_succ (act : ℕ → Bool) (cbs : List ℚ) (flag : Bool) (axis : ℚ)
    (K : ℕ) (acc : MethodAcc) :
    method_fold act cbs flag axis (K + 1) acc =
      method_step act cbs flag axis (method_fold act cbs flag axis K acc) K := by
  rw [method_fold, method_fold, List.range_succ, List.foldl_append, List.foldl_cons,
    List.foldl_nil]

theorem carry_fold_zero (axis : ℚ) (lb : List ℚ) (ds : List (List (ℚ × ℚ))) :
    carry_fold axis lb 0 ds = ds := rfl

theorem carry_fold_succ (axis : ℚ) (lb : List ℚ) (K : ℕ) (ds : List (List (ℚ × ℚ))) :
    carry_fold axis lb (K + 1) ds = carry_step axis lb (carry_fold axis lb K ds) K := by
  rw [carry_fold, carry_fold, List.range_succ, List.foldl_append, List.foldl_cons,
    List.foldl_nil]

/-! Component lemmas for one method_step. -/

theorem method_step_fst_false_set (act : ℕ → Bool) (cbs : List ℚ) (axis : ℚ)
    (acc : MethodAcc) (i : ℕ) (h : i < acc.1.length) :
    (method_step act cbs false axis acc i).1 =
      acc.1.set i ((acc.1.getD i []) ++ [(axis, cbs.getD i 0)]) := by
  unfold method_step
  simp [h]

theorem method_step_fst_false_push (act : ℕ → Bool) (cbs : List ℚ) (axis : ℚ)
    (acc : MethodAcc) (i : ℕ) (h : ¬ i < acc.1.length) :
    (method_step act cbs false axis acc i).1 =
      acc.1 ++ [[(axis, cbs.getD i 0)]] := by
  unfold method_step
  simp [h]

theorem method_step_fst_true (act : ℕ → Bool) (cbs : List ℚ) (axis : ℚ)
    (acc : MethodAcc) (i : ℕ) :
    (method_step act cbs true axis acc i).1 =
      acc.1.set i ((acc.1.getD i []).dropLast ++
        [(((acc.1.getD i []).getLastD (0, 0)).1, cbs.getD i 0)]) := by
  unfold method_step
  simp

theorem method_step_lastbal (act : ℕ → Bool) (cbs : List ℚ) (flag : Bool) (axis : ℚ)
    (acc : MethodAcc) (i : ℕ) :
    (method_step act cbs flag axis acc i).2.1 = acc.2.1 ++ [cbs.getD i 0] := by
  unfold method_step
  cases flag <;> simp

theorem method_step_extrema (act : ℕ → Bool) (cbs : List ℚ) (flag : Bool) (axis : ℚ)
    (acc : MethodAcc) (i : ℕ) :
    (method_step act cbs flag axis acc i).2.2 =
      extrema_step act cbs acc.2.2.1 acc.2.2.2 i := by
  unfold method_step
  cases flag <;> simp

theorem extrema_step_mono (act : ℕ → Bool) (cbs : List ℚ) (lo hi : ℚ) (i : ℕ) :
    (extrema_step act cbs lo hi i).1 ≤ lo ∧ hi ≤ (extrema_step act cbs lo hi i).2 := by
  unfold extrema_step
  dsimp only
  split_ifs with h1 h2 h3
  all_goals first
    | exact ⟨le_refl lo, le_refl hi⟩
    | exact ⟨le_refl lo, by linarith⟩
    | exact ⟨by linarith, le_refl hi⟩

theorem extrema_step_le (act : ℕ → Bool) (cbs : List ℚ) (lo hi : ℚ) (i : ℕ)
    (h : lo ≤ hi) :
    (extrema_step act cbs lo hi i).1 ≤ (extrema_step act cbs lo hi i).2 := by
  unfold extrema_step
  dsimp only
  split_ifs with h1 h2 h3
  · show lo ≤ cbs.getD i 0
    linarith
  · show cbs.getD i 0 ≤ hi
    linarith
  · exact h
  · exact h

theorem extrema_step_covers (act : ℕ → Bool) (cbs : List ℚ) (lo hi : ℚ) (i : ℕ)
    (h : lo ≤ hi) (ha : act i = true) :
    (extrema_step act cbs lo hi i).1 ≤ cbs.getD i 0 ∧
      cbs.getD i 0 ≤ (extrema_step act cbs lo hi i).2 := by
  unfold extrema_step
  dsimp only
  split_ifs with h1 h2
  · exact ⟨by linarith, le_refl _⟩
  · exact ⟨le_refl _, by linarith⟩
  · exact ⟨by linarith, by linarith⟩

theorem extrema_step_lo_eq (act : ℕ → Bool) (cbs : List ℚ) (lo hi : ℚ) (i : ℕ)
    (h : act i = true → lo ≤ cbs.getD i 0) :
    (extrema_step act cbs lo hi i).1 = lo := by
  unfold extrema_step
  dsimp only
  split_ifs with h1 h2 h3
  · rfl
  · have := h h1
    show cbs.getD i 0 = lo
    linarith
  · rfl
  · rfl

/-! Characterization of the per-method fold on a transaction day. -/

theorem method_fold_false_append (act : ℕ → Bool) (cbs : List ℚ) (axis : ℚ) :
    ∀ (K : ℕ) (ds : List (List (ℚ × ℚ))) (lb : List ℚ) (lo hi : ℚ), K ≤ ds.length →
      (method_fold act cbs false axis K (ds, lb, lo, hi)).1.length = ds.length ∧
      (∀ i, K ≤ i → (method_fold act cbs false axis K (ds, lb, lo, hi)).1.getD i [] =
        ds.getD i []) ∧
      (∀ i, i < K → (method_fold act cbs false axis K (ds, lb, lo, hi)).1.getD i [] =
        ds.getD i [] ++ [(axis, cbs.getD i 0)]) ∧
      (method_fold act cbs false axis K (ds, lb, lo, hi)).2.1 =
        lb ++ (List.range K).map (fun i => cbs.getD i 0) := by
  intro K
  induction K with
  | zero =>
    intro ds lb lo hi _
    exact ⟨rfl, fun i _ => rfl, fun i h0 => absurd h0 (Nat.not_lt_zero i),
      by simp [method_fold_zero]⟩
  | succ K ih =>
    intro ds lb lo hi hK
    have hK' : K ≤ ds.length := by omega
    obtain ⟨ihlen, ihge, ihlt, ihlb⟩ := ih ds lb lo hi hK'
    rw [method_fold_succ]
    set F := method_fold act cbs false axis K (ds, lb, lo, hi) with hF
    have hKlt : K < F.1.length := by rw [ihlen]; omega
    have hfst := method_step_fst_false_set act cbs axis F K hKlt
    have hlbal := method_step_lastbal act cbs false axis F K
    refine ⟨?_, ?_, ?_, ?_⟩
    · rw [hfst, List.length_set, ihlen]
    · intro i h0
      rw [hfst, getD_set_ne _ _ _ _ _ (by omega)]
      exact ihge i (by omega)
    · intro i h0
      rcases Nat.lt_succ_iff_lt_or_eq.mp h0 with h | h
      · rw [hfst, getD_set_ne _ _ _ _ _ (by omega)]
        exact ihlt i h
      · subst h
        rw [hfst, getD_set_self _ _ _ _ hKlt, ihge i (le_refl _)]
    · rw [hlbal, ihlb]
      simp [List.range_succ]

theorem method_fold_false_push (act : ℕ → Bool) (cbs : List ℚ) (axis : ℚ) :
    ∀ (K : ℕ) (lb : List ℚ) (lo hi : ℚ),
      (method_fold act cbs false axis K ([], lb, lo, hi)).1 =
        (List.range K).map (fun i => [(axis, cbs.getD i 0)]) ∧
      (method_fold act cbs false axis K ([], lb, lo, hi)).2.1 =
        lb ++ (List.range K).map (fun i => cbs.getD i 0) := by
  intro K
  induction K with
  | zero => exact fun lb lo hi => ⟨rfl, by simp [method_fold_zero]⟩
  | succ K ih =>
    intro lb lo hi
    obtain ⟨ihds, ihlb⟩ := ih lb lo hi
    rw [method_fold_succ]
    set F := method_fold act cbs false axis K ([], lb, lo, hi) with hF
    have hKge : ¬ K < F.1.length := by
      rw [ihds, List.length_map, List.length_range]
      omega
    have hfst := method_step_fst_false_push act cbs axis F K hKge
    have hlbal := method_step_lastbal act cbs false axis F K
    constructor
    · rw [hfst, ihds]
      simp [List.range_succ]
    · rw [hlbal, ihlb]
      simp [List.range_succ]

theorem method_fold_true_merge (act : ℕ → Bool) (cbs : List ℚ) (axis : ℚ) :
    ∀ (K : ℕ) (ds : List (List (ℚ × ℚ))) (lb : List ℚ) (lo hi : ℚ), K ≤ ds.length →
      (method_fold act cbs true axis K (ds, lb, lo, hi)).1.length = ds.length ∧
      (∀ i, K ≤ i → (method_fold act cbs true axis K (ds, lb, lo, hi)).1.getD i [] =
        ds.getD i []) ∧
      (∀ i, i < K → (method_fold act cbs true axis K (ds, lb, lo, hi)).1.getD i [] =
        (ds.getD i []).dropLast ++
          [(((ds.getD i []).getLastD (0, 0)).1, cbs.getD i 0)]) ∧
      (method_fold act cbs true axis K (ds, lb, lo, hi)).2.1 =
        lb ++ (List.range K).map (fun i => cbs.getD i 0) := by
  intro K
  induction K with
  | zero =>
    intro ds lb lo hi _
    exact ⟨rfl, fun i _ => rfl, fun i h0 => absurd h0 (Nat.not_lt_zero i),
      by simp [method_fold_zero]⟩
  | succ K ih =>
    intro ds lb lo hi hK
    have hK' : K ≤ ds.length := by omega
    obtain ⟨ihlen, ihge, ihlt, ihlb⟩ := ih ds lb lo hi hK'
    rw [method_fold_succ]
    set F := method_fold act cbs true axis K (ds, lb, lo, hi) with hF
    have hKlt : K < F.1.length := by rw [ihlen]; omega
    have hfst := method_step_fst_true act cbs axis F K
    have hlbal := method_step_lastbal act cbs true axis F K
    refine ⟨?_, ?_, ?_, ?_⟩
    · rw [hfst, List.length_set, ihlen]
    · intro i h0
      rw [hfst, getD_set_ne _ _ _ _ _ (by omega)]
      exact ihge i (by omega)
    · intro i h0
      rcases Nat.lt_succ_iff_lt_or_eq.mp h0 with h | h
      · rw [hfst, getD_set_ne _ _ _ _ _ (by omega)]
        exact ihlt i h
      · subst h
        rw [hfst, getD_set_self _ _ _ _ hKlt, ihge i (le_refl _)]
    · rw [hlbal, ihlb]
      simp [List.range_succ]

/-! Extrema behavior of the per-method fold. -/

theorem method_fold_extrema_mono (act : ℕ → Bool) (cbs : List ℚ) (flag : Bool)
    (axis : ℚ) : ∀ (K : ℕ) (acc : MethodAcc),
    (method_fold act cbs flag axis K acc).2.2.1 ≤ acc.2.2.1 ∧
      acc.2.2.2 ≤ (method_fold act cbs flag axis K acc).2.2.2 := by
  intro K
  induction K with
  | zero => exact fun acc => ⟨le_refl _, le_refl _⟩
  | succ K ih =>
    intro acc
    obtain ⟨ih1, ih2⟩ := ih acc
    rw [method_fold_succ]
    set F := method_fold act cbs flag axis K acc with hF
    have hstep := method_step_extrema act cbs flag axis F K
    have hmono := extrema_step_mono act cbs F.2.2.1 F.2.2.2 K
    constructor
    · calc (method_step act cbs flag axis F K).2.2.1
          = (extrema_step act cbs F.2.2.1 F.2.2.2 K).1 := by rw [hstep]
        _ ≤ F.2.2.1 := hmono.1
        _ ≤ acc.2.2.1 := ih1
    · calc acc.2.2.2 ≤ F.2.2.2 := ih2
        _ ≤ (extrema_step act cbs F.2.2.1 F.2.2.2 K).2 := hmono.2
        _ = (method_step act cbs flag axis F K).2.2.2 := by rw [hstep]

theorem method_fold_extrema_le (act : ℕ → Bool) (cbs : List ℚ) (flag : Bool)
    (axis : ℚ) : ∀ (K : ℕ) (acc : MethodAcc), acc.2.2.1 ≤ acc.2.2.2 →
    (method_fold act cbs flag axis K acc).2.2.1 ≤
      (method_fold act cbs flag axis K acc).2.2.2 := by
  intro K
  induction K with
  | zero => exact fun acc h => h
  | succ K ih =>
    intro acc h
    rw [method_fold_succ]
    set F := method_fold act cbs flag axis K acc with hF
    have hstep := method_step_extrema act cbs flag axis F K
    have hle := extrema_step_le act cbs F.2.2.1 F.2.2.2 K (ih acc h)
    calc (method_step act cbs flag axis F K).2.2.1
        = (extrema_step act cbs F.2.2.1 F.2.2.2 K).1 := by rw [hstep]
      _ ≤ (extrema_step act cbs F.2.2.1 F.2.2.2 K).2 := hle
      _ = (method_step act cbs flag axis F K).2.2.2 := by rw [hstep]

theorem method_fold_covers (act : ℕ → Bool) (cbs : List ℚ) (flag : Bool)
    (axis : ℚ) : ∀ (K : ℕ) (acc : MethodAcc), acc.2.2.1 ≤ acc.2.2.2 →
    ∀ i, i < K → act i = true →
    (method_fold act cbs flag axis K acc).2.2.1 ≤ cbs.getD i 0 ∧
      cbs.getD i 0 ≤ (method_fold act cbs flag axis K acc).2.2.2 := by
  intro K
  induction K with
  | zero => exact fun acc _ i h0 => absurd h0 (Nat.not_lt_zero i)
  | succ K ih =>
    intro acc h i h0 ha
    rw [method_fold_succ]
    set F := method_fold act cbs flag axis K acc with hF
    have hstep := method_step_extrema act cbs flag axis F K
    have hFle : F.2.2.1 ≤ F.2.2.2 := method_fold_extrema_le act cbs flag axis K acc h
    have hmono := extrema_step_mono act cbs F.2.2.1 F.2.2.2 K
    rcases Nat.lt_succ_iff_lt_or_eq.mp h0 with h1 | h1
    · obtain ⟨c1, c2⟩ := ih acc h i h1 ha
      constructor
      · calc (method_step act cbs flag axis F K).2.2.1
            = (extrema_step act cbs F.2.2.1 F.2.2.2 K).1 := by rw [hstep]
          _ ≤ F.2.2.1 := hmono.1
          _ ≤ cbs.getD i 0 := c1
      · calc cbs.getD i 0 ≤ F.2.2.2 := c2
          _ ≤ (extrema_step act cbs F.2.2.1 F.2.2.2 K).2 := hmono.2
          _ = (method_step act cbs flag axis F K).2.2.2 := by rw [hstep]
    · subst h1
      obtain ⟨c1, c2⟩ := extrema_step_covers act cbs F.2.2.1 F.2.2.2 i hFle ha
      constructor
      · calc (method_step act cbs flag axis F i).2.2.1
            = (extrema_step act cbs F.2.2.1 F.2.2.2 i).1 := by rw [hstep]
          _ ≤ cbs.getD i 0 := c1
      · calc cbs.getD i 0 ≤ (extrema_step act cbs F.2.2.1 F.2.2.2 i).2 := c2
          _ = (method_step act cbs flag axis F i).2.2.2 := by rw [hstep]

theorem method_fold_lo_eq (act : ℕ → Bool) (cbs : List ℚ) (flag : Bool)
    (axis : ℚ) : ∀ (K : ℕ) (acc : MethodAcc),
    (∀ i, i < K → act i = true → acc.2.2.1 ≤ cbs.getD i 0) →
    (method_fold act cbs flag axis K acc).2.2.1 = acc.2.2.1 := by
  intro K
  induction K with
  | zero => exact fun acc _ => rfl
  | succ K ih =>
    intro acc h
    rw [method_fold_succ]
    set F := method_fold act cbs flag axis K acc with hF
    have ihF : F.2.2.1 = acc.2.2.1 := ih acc (fun i h1 => h i (by omega))
    have hstep := method_step_extrema act cbs flag axis F K
    have hK := extrema_step_lo_eq act cbs F.2.2.1 F.2.2.2 K
      (fun ha => by rw [ihF]; exact h K (by omega) ha)
    calc (method_step act cbs flag axis F K).2.2.1
        = (extrema_step act cbs F.2.2.1 F.2.2.2 K).1 := by rw [hstep]
      _ = F.2.2.1 := hK
      _ = acc.2.2.1 := ihF

/-! Characterization of the carry-forward fold. -/

theorem carry_fold_append (axis : ℚ) (lb : List ℚ) :
    ∀ (K : ℕ) (ds : List (List (ℚ × ℚ))), K ≤ ds.length →
      (carry_fold axis lb K ds).length = ds.length ∧
      (∀ i, K ≤ i → (carry_fold axis lb K ds).getD i [] = ds.getD i []) ∧
      (∀ i, i < K → (carry_fold axis lb K ds).getD i [] =
        ds.getD i [] ++ [(axis, lb.getD i 0)]) := by
  intro K
  induction K with
  | zero =>
    exact fun ds _ => ⟨rfl, fun i _ => rfl, fun i h0 => absurd h0 (Nat.not_lt_zero i)⟩
  | succ K ih =>
    intro ds hK
    obtain ⟨ihlen, ihge, ihlt⟩ := ih ds (by omega)
    rw [carry_fold_succ]
    set F := carry_fold axis lb K ds with hF
    have hKlt : K < F.length := by rw [ihlen]; omega
    refine ⟨?_, ?_, ?_⟩
    · rw [carry_step, List.length_set, ihlen]
    · intro i h0
      rw [carry_step, getD_set_ne _ _ _ _ _ (by omega)]
      exact ihge i (by omega)
    · intro i h0
      rcases Nat.lt_succ_iff_lt_or_eq.mp h0 with h | h
      · rw [carry_step, getD_set_ne _ _ _ _ _ (by omega)]
        exact ihlt i h
      · subst h
        rw [carry_step, getD_set_self _ _ _ _ hKlt, ihge i (le_refl _)]

theorem carry_fold_nil (axis : ℚ) (lb : List ℚ) :
    ∀ K : ℕ, carry_fold axis lb K [] = [] := by
  intro K
  induction K with
  | zero => rfl
  | succ K ih =>
    rw [carry_fold_succ, ih]
    rfl

/-! Helpers about sorted snapshots and list extremities. -/

theorem getLast_some_mem {α : Type} (l : List α) (a : α) (h : l.getLast? = some a) :
    a ∈ l := by
  obtain ⟨hne, heq⟩ := List.mem_getLast?_eq_getLast (Option.mem_def.mpr h)
  rw [heq]
  exact List.getLast_mem hne

theorem getD_eq_getElem {α : Type} (l : List α) (j : ℕ) (d : α) (h : j < l.length) :
    l.getD j d = l[j] := by
  rw [List.getD_eq_getElem?_getD, List.getElem?_eq_getElem h]
  rfl

theorem sorted_adj (all_txs : List TxRow) (hs : ledger_sorted all_txs) (j : ℕ)
    (h : j + 1 < all_txs.length) : tx_date all_txs j ≤ tx_date all_txs (j + 1) := by
  have := List.chain'_iff_get.mp hs j (by omega)
  rw [tx_date, tx_date, getD_eq_getElem _ _ _ (by omega), getD_eq_getElem _ _ _ h]
  simpa [List.get_eq_getElem] using this

theorem sorted_mono (all_txs : List TxRow) (hs : ledger_sorted all_txs) (i j : ℕ)
    (hij : i ≤ j) (hj : j < all_txs.length) :
    tx_date all_txs i ≤ tx_date all_txs j := by
  revert hj
  induction j, hij using Nat.le_induction with
  | base => exact fun _ => le_refl _
  | succ j hij ih =>
    intro hj1
    exact le_trans (ih (by omega)) (sorted_adj all_txs hs j (by omega))

theorem sorted_le_final (all_txs : List TxRow) (hs : ledger_sorted all_txs) :
    ∀ r ∈ all_txs, r.date ≤ chart_final_date all_txs := by
  intro r hr
  obtain ⟨i, hi, heq⟩ := List.mem_iff_getElem.mp hr
  have hlen : 0 < all_txs.length := by omega
  have h1 : r.date = tx_date all_txs i := by
    rw [tx_date, getD_eq_getElem _ _ _ hi, heq]
  have h2 : chart_final_date all_txs = tx_date all_txs (all_txs.length - 1) := rfl
  rw [h1, h2]
  exact sorted_mono all_txs hs i (all_txs.length - 1) (by omega) (by omega)

theorem tx_date_mem_map (all_txs : List TxRow) (j : ℕ) (h : j < all_txs.length) :
    tx_date all_txs j ∈ all_txs.map TxRow.date := by
  rw [tx_date, getD_eq_getElem _ _ _ h]
  exact List.mem_map_of_mem TxRow.date (List.getElem_mem h)

theorem mem_map_tx_date (all_txs : List TxRow) (c : ℤ)
    (h : c ∈ all_txs.map TxRow.date) : ∃ j, j < all_txs.length ∧ tx_date all_txs j = c := by
  obtain ⟨r, hr, heq⟩ := List.mem_map.mp h
  obtain ⟨i, hi, hieq⟩ := List.mem_iff_getElem.mp hr
  exact ⟨i, hi, by rw [tx_date, getD_eq_getElem _ _ _ hi, hieq, heq]⟩

/-! Field behavior of the budget step. -/

theorem chart_budget_fields (s : ChartState) :
    (chart_budget s).1.datasets = s.datasets ∧
    (chart_budget s).1.last_balances = s.last_balances ∧
    (chart_budget s).1.lowest_balance = s.lowest_balance ∧
    (chart_budget s).1.highest_balance = s.highest_balance ∧
    (chart_budget s).1.current_axis = s.current_axis ∧
    (chart_budget s).1.checking_date = s.checking_date ∧
    (chart_budget s).1.to_add_again = s.to_add_again ∧
    (chart_budget s).1.data_num = s.data_num := by
  unfold chart_budget
  split_ifs <;> rcases h : s.to_loop with _ | val <;> simp [h] <;> split_ifs <;> simp

theorem chart_budget_break_label (s : ChartState) (h : (chart_budget s).2 = true) :
    (chart_budget s).1.date_labels.getLast? = some s.checking_date := by
  unfold chart_budget at h ⊢
  split_ifs at h ⊢ with h1
  rcases h2 : s.to_loop with _ | val
  · rw [h2] at h
    simp at h
  · rw [h2] at h
    dsimp only at h ⊢
    split_ifs at h ⊢ with h3
    simp

theorem chart_budget_none (s : ChartState) (h : s.to_loop = none) :
    chart_budget s = (s, false) := by
  unfold chart_budget
  split_ifs <;> simp [h]

theorem chart_budget_none_preserved (s : ChartState) (h : s.to_loop = none) :
    (chart_budget s).1.to_loop = none := by
  rw [chart_budget_none s h]
  exact h

theorem dataInv_of_facts (M : ℕ) (act : ℕ → Bool) (r : ChartState)
    (h1 : r.datasets.length = M)
    (h2 : ∃ L, 1 ≤ L ∧ ∀ i, i < M → (r.datasets.getD i []).length = L)
    (h3 : ∀ i, i < M → ∃ p : ℚ × ℚ, (r.datasets.getD i []).getLast? = some p ∧
      p.2 = r.last_balances.getD i 0)
    (h4 : r.lowest_balance ≤ 0) (h5 : 0 ≤ r.highest_balance)
    (h6 : ∀ i, i < M → act i = true → ∀ p ∈ r.datasets.getD i [],
      r.lowest_balance ≤ p.2 ∧ p.2 ≤ r.highest_balance) :
    DataInv M act r :=
  ⟨Or.inr ⟨h1, h2⟩, fun _ i hi => h3 i hi, h4, h5, h6⟩

theorem chart_carry_day_data (M : ℕ) (act : ℕ → Bool) (s : ChartState)
    (hd : DataInv M act s) :
    DataInv M act (chart_carry_day M s) ∧
    (chart_carry_day M s).lowest_balance = s.lowest_balance ∧
    (chart_carry_day M s).highest_balance = s.highest_balance ∧
    (chart_carry_day M s).to_loop = s.to_loop ∧
    (chart_carry_day M s).date_labels = s.date_labels ∧
    (chart_carry_day M s).checking_date = s.checking_date + 1 ∧
    (chart_carry_day M s).data_num = s.data_num ∧
    (chart_carry_day M s).to_add_again = s.to_add_again ∧
    (s.datasets.length = M → (chart_carry_day M s).datasets.length = M) := by
  unfold chart_carry_day
  rcases hd.shape with ⟨hnil, hflag⟩ | ⟨hlen, L, hL1, hL⟩
  · rw [hnil, carry_fold_nil]
    refine ⟨⟨Or.inl ⟨rfl, hflag⟩, ?_, hd.lo_nonpos, hd.hi_nonneg, ?_⟩,
      rfl, rfl, rfl, rfl, rfl, rfl, rfl, ?_⟩
    · intro hne
      exact absurd rfl hne
    · intro i _ _ p hp
      simp at hp
    · intro h0
      simpa using h0
  · obtain ⟨c1, c2, c3⟩ := carry_fold_append s.current_axis s.last_balances M s.datasets
      (le_of_eq hlen.symm)
    have hMne : ∀ i, i < M → s.datasets ≠ [] := by
      intro i hi he
      rw [he] at hlen
      simp at hlen
      omega
    refine ⟨?_, rfl, rfl, rfl, rfl, rfl, rfl, rfl, fun _ => by rw [c1, hlen]⟩
    refine dataInv_of_facts M act _ ?_ ?_ ?_ hd.lo_nonpos hd.hi_nonneg ?_
    · rw [c1, hlen]
    · refine ⟨L + 1, by omega, ?_⟩
      intro i hi
      rw [c3 i hi, List.length_append, hL i hi]
      rfl
    · intro i hi
      refine ⟨(s.current_axis, s.last_balances.getD i 0), ?_, rfl⟩
      rw [c3 i hi]
      simp
    · intro i hi ha p hp
      rw [c3 i hi] at hp
      rcases List.mem_append.mp hp with hp | hp
      · exact hd.ranged i hi ha p hp
      · obtain ⟨q, hq1, hq2⟩ := hd.last_link (hMne i hi) i hi
        have hqmem : q ∈ s.datasets.getD i [] := getLast_some_mem _ _ hq1
        have hqb := hd.ranged i hi ha q hqmem
        rw [List.mem_singleton.mp hp]
        dsimp only
        rw [← hq2]
        exact hqb

set_option maxHeartbeats 1600000 in
theorem chart_tx_day_data (all_txs : List TxRow) (M : ℕ) (act : ℕ → Bool)
    (s : ChartState) (hd : DataInv M act s) :
    DataInv M act (chart_tx_day all_txs M act s) ∧
    (chart_tx_day all_txs M act s).datasets.length = M ∧
    (chart_tx_day all_txs M act s).lowest_balance ≤ s.lowest_balance ∧
    s.highest_balance ≤ (chart_tx_day all_txs M act s).highest_balance ∧
    (chart_tx_day all_txs M act s).to_loop = s.to_loop ∧
    (chart_tx_day all_txs M act s).date_labels = s.date_labels ∧
    (chart_tx_day all_txs M act s).data_num = s.data_num + 1 ∧
    s.checking_date ≤ (chart_tx_day all_txs M act s).checking_date ∧
    (chart_tx_day all_txs M act s).checking_date ≤ s.checking_date + 1 := by
  have hle0 : s.lowest_balance ≤ s.highest_balance := le_trans hd.lo_nonpos hd.hi_nonneg
  unfold chart_tx_day
  set cbs := (all_txs.getD s.data_num defaultRow).balances with hcbs
  set acc := method_fold act cbs s.to_add_again s.current_axis M
    (s.datasets, [], s.lowest_balance, s.highest_balance) with hacc
  have hmono := method_fold_extrema_mono act cbs s.to_add_again s.current_axis M
    (s.datasets, [], s.lowest_balance, s.highest_balance)
  rw [← hacc] at hmono
  have hcov := method_fold_covers act cbs s.to_add_again s.current_axis M
    (s.datasets, [], s.lowest_balance, s.highest_balance) hle0
  rw [← hacc] at hcov
  have hfacts : acc.1.length = M ∧
      (∃ L, 1 ≤ L ∧ ∀ i, i < M → (acc.1.getD i []).length = L) ∧
      (∀ i, i < M → ∃ p : ℚ × ℚ, (acc.1.getD i []).getLast? = some p ∧
        p.2 = acc.2.1.getD i 0) ∧
      (∀ i, i < M → act i = true → ∀ p ∈ acc.1.getD i [],
        acc.2.2.1 ≤ p.2 ∧ p.2 ≤ acc.2.2.2) := by
    rcases hflag : s.to_add_again with _ | _
    · -- a fresh day: points are appended (or slots pushed when datasets is empty)
      rw [hflag] at hacc
      rcases hd.shape with ⟨hnil, _⟩ | ⟨hlen, L, hL1, hL⟩
      · rw [hnil] at hacc
        obtain ⟨e1, e2⟩ := method_fold_false_push act cbs s.current_axis M []
          s.lowest_balance s.highest_balance
        rw [← hacc] at e1 e2
        refine ⟨?_, ⟨1, le_refl 1, ?_⟩, ?_, ?_⟩
        · rw [e1]
          simp
        · intro i hi
          rw [e1, getD_map_range _ _ _ hi]
          rfl
        · intro i hi
          refine ⟨(s.current_axis, cbs.getD i 0), ?_, ?_⟩
          · rw [e1, getD_map_range _ _ _ hi]
            rfl
          · rw [e2, List.nil_append, getD_map_range _ _ _ hi]
        · intro i hi ha p hp
          rw [e1, getD_map_range _ _ _ hi] at hp
          rw [List.mem_singleton.mp hp]
          exact hcov i hi ha
      · obtain ⟨a1, a2, a3, a4⟩ := method_fold_false_append act cbs s.current_axis M
          s.datasets [] s.lowest_balance s.highest_balance (le_of_eq hlen.symm)
        rw [← hacc] at a1 a2 a3 a4
        refine ⟨?_, ⟨L + 1, by omega, ?_⟩, ?_, ?_⟩
        · rw [a1, hlen]
        · intro i hi
          rw [a3 i hi, List.length_append, hL i hi]
          rfl
        · intro i hi
          refine ⟨(s.current_axis, cbs.getD i 0), ?_, ?_⟩
          · rw [a3 i hi]
            simp
          · rw [a4, List.nil_append, getD_map_range _ _ _ hi]
        · intro i hi ha p hp
          rw [a3 i hi] at hp
          rcases List.mem_append.mp hp with hp | hp
          · have hb := hd.ranged i hi ha p hp
            exact ⟨le_trans hmono.1 hb.1, le_trans hb.2 hmono.2⟩
          · rw [List.mem_singleton.mp hp]
            exact hcov i hi ha
    · -- same-date merge: the last point of every slot is overwritten
      rw [hflag] at hacc
      rcases hd.shape with ⟨_, hflagf⟩ | ⟨hlen, L, hL1, hL⟩
      · rw [hflag] at hflagf
        exact absurd hflagf (by simp)
      · obtain ⟨m1, m2, m3, m4⟩ := method_fold_true_merge act cbs s.current_axis M
          s.datasets [] s.lowest_balance s.highest_balance (le_of_eq hlen.symm)
        rw [← hacc] at m1 m2 m3 m4
        refine ⟨?_, ⟨L, hL1, ?_⟩, ?_, ?_⟩
        · rw [m1, hlen]
        · intro i hi
          rw [m3 i hi, List.length_append, List.length_dropLast, hL i hi]
          simp
          omega
        · intro i hi
          refine ⟨((((s.datasets.getD i []).getLastD (0, 0)).1), cbs.getD i 0), ?_, ?_⟩
          · rw [m3 i hi]
            simp
          · rw [m4, List.nil_append, getD_map_range _ _ _ hi]
        · intro i hi ha p hp
          rw [m3 i hi] at hp
          rcases List.mem_append.mp hp with hp | hp
          · have hb := hd.ranged i hi ha p ((List.dropLast_sublist _).subset hp)
            exact ⟨le_trans hmono.1 hb.1, le_trans hb.2 hmono.2⟩
          · rw [List.mem_singleton.mp hp]
            exact hcov i hi ha
  obtain ⟨f1, f2, f3, f4⟩ := hfacts
  have hlo1 : acc.2.2.1 ≤ s.lowest_balance := hmono.1
  have hhi1 : s.highest_balance ≤ acc.2.2.2 := hmono.2
  have hlo2 : acc.2.2.1 ≤ 0 := le_trans hlo1 hd.lo_nonpos
  have hhi2 : (0 : ℚ) ≤ acc.2.2.2 := le_trans hd.hi_nonneg hhi1
  dsimp only
  split_ifs
  all_goals refine ⟨?_, ?_, ?_, ?_, rfl, rfl, rfl, ?_, ?_⟩
  all_goals first
    | exact f1
    | exact hlo1
    | exact hhi1
    | (dsimp only; omega)
    | (refine dataInv_of_facts M act _ ?_ ?_ ?_ ?_ ?_ ?_
       all_goals first
         | exact f1
         | exact f2
         | exact f3
         | exact hlo2
         | exact hhi2
         | exact f4)

/-! Simple field lemmas and congruence transport for the invariants. -/

theorem chart_tx_day_to_loop (all_txs : List TxRow) (M : ℕ) (act : ℕ → Bool)
    (s : ChartState) : (chart_tx_day all_txs M act s).to_loop = s.to_loop := by
  unfold chart_tx_day
  dsimp only
  split_ifs <;> rfl

theorem chart_carry_day_to_loop (M : ℕ) (s : ChartState) :
    (chart_carry_day M s).to_loop = s.to_loop := rfl

theorem walkInv_congr (all_txs : List TxRow) (r r' : ChartState)
    (h1 : r'.data_num = r.data_num) (h2 : r'.checking_date = r.checking_date)
    (h3 : r'.to_add_again = r.to_add_again) (hw : WalkInv all_txs r) :
    WalkInv all_txs r' := by
  refine ⟨?_, ?_, ?_, ?_, ?_⟩
  · rw [h1]; exact hw.data_le
  · rw [h1, h2]; exact hw.consumed_le
  · rw [h1, h2]; exact hw.pending_ge
  · rw [h1, h2, h3]; exact hw.coalesce_eq
  · rw [h1, h2, h3]; exact hw.consumed_lt

theorem dataInv_congr (M : ℕ) (act : ℕ → Bool) (r r' : ChartState)
    (h1 : r'.datasets = r.datasets) (h2 : r'.last_balances = r.last_balances)
    (h3 : r'.lowest_balance = r.lowest_balance)
    (h4 : r'.highest_balance = r.highest_balance)
    (h5 : r'.to_add_again = r.to_add_again) (hd : DataInv M act r) :
    DataInv M act r' := by
  refine ⟨?_, ?_, ?_, ?_, ?_⟩
  · rw [h1, h5]; exact hd.shape
  · rw [h1, h2]; exact hd.last_link
  · rw [h3]; exact hd.lo_nonpos
  · rw [h4]; exact hd.hi_nonneg
  · rw [h1, h3, h4]; exact hd.ranged

theorem walk_measure_congr (all_txs : List TxRow) (final_date : ℤ)
    (r r' : ChartState) (h1 : r'.data_num = r.data_num)
    (h2 : r'.checking_date = r.checking_date) :
    walk_measure all_txs final_date r' = walk_measure all_txs final_date r := by
  unfold walk_measure
  rw [h1, h2]

/-! The pending row of a transaction day is exactly the simulated day. -/

theorem walk_pending (all_txs : List TxRow) (all_dates : List ℤ)
    (hsorted : ledger_sorted all_txs)
    (hdates : all_dates = all_txs.map TxRow.date)
    (s : ChartState) (hw : WalkInv all_txs s)
    (hcont : all_dates.contains s.checking_date = true) :
    s.data_num < all_txs.length ∧ tx_date all_txs s.data_num = s.checking_date := by
  have hmem : s.checking_date ∈ all_txs.map TxRow.date := by
    rw [← hdates]
    simpa using hcont
  obtain ⟨j, hj, hjd⟩ := mem_map_tx_date all_txs s.checking_date hmem
  rcases hta : s.to_add_again with _ | _
  · have hlt := hw.consumed_lt hta
    have hjge : s.data_num ≤ j := by
      by_contra hc
      push_neg at hc
      have := hlt j hc
      omega
    have hdlt : s.data_num < all_txs.length := by omega
    refine ⟨hdlt, le_antisymm ?_ (hw.pending_ge hdlt)⟩
    calc tx_date all_txs s.data_num
        ≤ tx_date all_txs j := sorted_mono all_txs hsorted _ j hjge hj
      _ = s.checking_date := hjd
  · exact ⟨(hw.coalesce_eq hta).1, (hw.coalesce_eq hta).2⟩

/-! Walk-invariant preservation of the two day kinds. -/

theorem chart_tx_day_walk (all_txs : List TxRow) (M : ℕ) (act : ℕ → Bool)
    (final_date : ℤ) (hsorted : ledger_sorted all_txs)
    (h2040 : final_date < date_2040_01_01) (s : ChartState)
    (hw : WalkInv all_txs s) (hchk : s.checking_date ≤ final_date)
    (hdn : s.data_num < all_txs.length)
    (hdeq : tx_date all_txs s.data_num = s.checking_date) :
    WalkInv all_txs (chart_tx_day all_txs M act s) ∧
    walk_measure all_txs final_date (chart_tx_day all_txs M act s) <
      walk_measure all_txs final_date s ∧
    s.checking_date ≤ (chart_tx_day all_txs M act s).checking_date := by
  have h2040n : final_date < 25567 := h2040
  unfold chart_tx_day
  dsimp only
  split_ifs with h1 h2 h3
  · -- next row exists and shares the date: merge, the axis does not advance
    have hnext : tx_date all_txs (s.data_num + 1) = s.checking_date := h2
    refine ⟨⟨?_, ?_, ?_, ?_, ?_⟩, ?_, le_refl _⟩
    · dsimp only
      omega
    · dsimp only
      intro j hj
      rcases Nat.lt_succ_iff_lt_or_eq.mp hj with h | h
      · exact hw.consumed_le j h
      · rw [h, hdeq]
    · dsimp only
      intro _
      exact le_of_eq hnext.symm
    · dsimp only
      intro _
      exact ⟨by omega, hnext⟩
    · dsimp only
      intro hko
      exact absurd hko (by simp)
    · unfold walk_measure
      dsimp only
      omega
  · -- next row exists with a different date: the day advances
    have hnext : tx_date all_txs (s.data_num + 1) ≠ s.checking_date := h2
    have hadj := sorted_adj all_txs hsorted s.data_num (by omega)
    refine ⟨⟨?_, ?_, ?_, ?_, ?_⟩, ?_, ?_⟩
    · dsimp only
      omega
    · dsimp only
      intro j hj
      rcases Nat.lt_succ_iff_lt_or_eq.mp hj with h | h
      · have := hw.consumed_le j h
        omega
      · rw [h]
        omega
    · dsimp only
      intro _
      rw [hdeq] at hadj
      omega
    · dsimp only
      intro hko
      exact absurd hko (by simp)
    · dsimp only
      intro _ j hj
      rcases Nat.lt_succ_iff_lt_or_eq.mp hj with h | h
      · have := hw.consumed_le j h
        omega
      · rw [h]
        omega
    · unfold walk_measure
      dsimp only
      omega
    · dsimp only
      omega
  · -- no next row but the 2040 placeholder equals the simulated day: impossible
    exfalso
    have h3n : (25567 : ℤ) = s.checking_date := h3
    omega
  · -- no next row: the day advances
    refine ⟨⟨?_, ?_, ?_, ?_, ?_⟩, ?_, ?_⟩
    · dsimp only
      omega
    · dsimp only
      intro j hj
      rcases Nat.lt_succ_iff_lt_or_eq.mp hj with h | h
      · have := hw.consumed_le j h
        omega
      · rw [h]
        omega
    · dsimp only
      intro hlt
      omega
    · dsimp only
      intro hko
      exact absurd hko (by simp)
    · dsimp only
      intro _ j hj
      rcases Nat.lt_succ_iff_lt_or_eq.mp hj with h | h
      · have := hw.consumed_le j h
        omega
      · rw [h]
        omega
    · unfold walk_measure
      dsimp only
      omega
    · dsimp only
      omega

theorem chart_carry_day_walk (all_txs : List TxRow) (all_dates : List ℤ) (M : ℕ)
    (final_date : ℤ) (hdates : all_dates = all_txs.map TxRow.date) (s : ChartState)
    (hw : WalkInv all_txs s) (hchk : s.checking_date ≤ final_date)
    (hnc : all_dates.contains s.checking_date = false) :
    WalkInv all_txs (chart_carry_day M s) ∧
    walk_measure all_txs final_date (chart_carry_day M s) <
      walk_measure all_txs final_date s ∧
    s.checking_date ≤ (chart_carry_day M s).checking_date := by
  have hnotmem : s.checking_date ∉ all_txs.map TxRow.date := by
    rw [← hdates]
    simpa using hnc
  have hta : s.to_add_again = false := by
    rcases h : s.to_add_again with _ | _
    · rfl
    · obtain ⟨hlt, heq⟩ := hw.coalesce_eq h
      exact absurd (heq ▸ tx_date_mem_map all_txs s.data_num hlt) hnotmem
  have hpend : s.data_num < all_txs.length →
      s.checking_date + 1 ≤ tx_date all_txs s.data_num := by
    intro hlt
    have h1 := hw.pending_ge hlt
    have h2 : tx_date all_txs s.data_num ≠ s.checking_date := by
      intro he
      exact absurd (he ▸ tx_date_mem_map all_txs s.data_num hlt) hnotmem
    omega
  unfold chart_carry_day
  refine ⟨⟨?_, ?_, ?_, ?_, ?_⟩, ?_, ?_⟩
  · dsimp only
    exact hw.data_le
  · dsimp only
    intro j hj
    have := hw.consumed_le j hj
    omega
  · dsimp only
    exact hpend
  · dsimp only
    rw [hta]
    intro hko
    exact absurd hko (by simp)
  · dsimp only
    intro _ j hj
    have := hw.consumed_lt hta j hj
    omega
  · unfold walk_measure
    dsimp only
    omega
  · dsimp only
    omega

/-! Characterization of one full loop iteration. -/

theorem chart_iter_fst (all_txs : List TxRow) (all_dates : List ℤ) (M : ℕ)
    (act : ℕ → Bool) (final_date : ℤ) (s : ChartState) :
    (chart_iter all_txs all_dates M act final_date s).1 =
      (chart_budget (chart_iter_body all_txs all_dates M act s)).1 := by
  unfold chart_iter
  dsimp only
  split_ifs <;> rfl

theorem chart_iter_cont (all_txs : List TxRow) (all_dates : List ℤ) (M : ℕ)
    (act : ℕ → Bool) (final_date : ℤ) (s : ChartState)
    (h : (chart_iter all_txs all_dates M act final_date s).2 = false) :
    (chart_iter all_txs all_dates M act final_date s).1.checking_date <
      final_date + 1 := by
  rw [chart_iter_fst]
  unfold chart_iter at h
  dsimp only at h
  split_ifs at h with h1 h2
  omega

theorem chart_iter_break (all_txs : List TxRow) (all_dates : List ℤ) (M : ℕ)
    (act : ℕ → Bool) (final_date : ℤ) (s : ChartState)
    (h : (chart_iter all_txs all_dates M act final_date s).2 = true) :
    (chart_iter all_txs all_dates M act final_date s).1.checking_date ≥
        final_date + 1 ∨
      (chart_iter all_txs all_dates M act final_date s).1.date_labels.getLast? =
        some (chart_iter all_txs all_dates M act final_date s).1.checking_date := by
  rw [chart_iter_fst]
  unfold chart_iter at h
  dsimp only at h
  split_ifs at h with h1 h2
  · right
    have hbl := chart_budget_break_label (chart_iter_body all_txs all_dates M act s) h1
    have hbf := chart_budget_fields (chart_iter_body all_txs all_dates M act s)
    rw [hbf.2.2.2.2.2.1]
    exact hbl
  · left
    exact h2

theorem chart_iter_body_to_loop (all_txs : List TxRow) (all_dates : List ℤ) (M : ℕ)
    (act : ℕ → Bool) (s : ChartState) :
    (chart_iter_body all_txs all_dates M act s).to_loop = s.to_loop := by
  unfold chart_iter_body
  split_ifs
  · rw [chart_tx_day_to_loop]
  · rw [chart_carry_day_to_loop]

theorem chart_iter_none (all_txs : List TxRow) (all_dates : List ℤ) (M : ℕ)
    (act : ℕ → Bool) (final_date : ℤ) (s : ChartState) (hn : s.to_loop = none) :
    (chart_iter all_txs all_dates M act final_date s).1.to_loop = none := by
  rw [chart_iter_fst]
  exact chart_budget_none_preserved _
    ((chart_iter_body_to_loop all_txs all_dates M act s).trans hn)

theorem chart_iter_none_break (all_txs : List TxRow) (all_dates : List ℤ) (M : ℕ)
    (act : ℕ → Bool) (final_date : ℤ) (s : ChartState) (hn : s.to_loop = none)
    (h : (chart_iter all_txs all_dates M act final_date s).2 = true) :
    (chart_iter all_txs all_dates M act final_date s).1.checking_date ≥
      final_date + 1 := by
  have hb := chart_budget_none _
    ((chart_iter_body_to_loop all_txs all_dates M act s).trans hn)
  rw [chart_iter_fst, hb]
  unfold chart_iter at h
  dsimp only at h
  rw [hb] at h
  simp only [Bool.false_eq_true, if_false] at h
  split_ifs at h with h2
  exact h2

theorem chart_iter_data (all_txs : List TxRow) (all_dates : List ℤ) (M : ℕ)
    (act : ℕ → Bool) (final_date : ℤ) (s : ChartState)
    (hd : DataInv M act s) (hchk : s.checking_date ≤ final_date) :
    DataInv M act (chart_iter all_txs all_dates M act final_date s).1 ∧
    (chart_iter all_txs all_dates M act final_date s).1.lowest_balance ≤
      s.lowest_balance ∧
    s.highest_balance ≤
      (chart_iter all_txs all_dates M act final_date s).1.highest_balance ∧
    (chart_iter all_txs all_dates M act final_date s).1.checking_date ≤
      final_date + 1 ∧
    (s.datasets.length = M →
      (chart_iter all_txs all_dates M act final_date s).1.datasets.length = M) := by
  rw [chart_iter_fst]
  set t := chart_iter_body all_txs all_dates M act s with ht
  have hbf := chart_budget_fields t
  have hT : DataInv M act t ∧ t.lowest_balance ≤ s.lowest_balance ∧
      s.highest_balance ≤ t.highest_balance ∧
      t.checking_date ≤ s.checking_date + 1 ∧
      (s.datasets.length = M → t.datasets.length = M) := by
    rw [ht]
    unfold chart_iter_body
    split_ifs
    · obtain ⟨d1, d2, d3, d4, _, _, _, _, d9⟩ := chart_tx_day_data all_txs M act s hd
      exact ⟨d1, d3, d4, d9, fun _ => d2⟩
    · obtain ⟨c1, c2, c3, _, _, c6, _, _, c9⟩ := chart_carry_day_data M act s hd
      exact ⟨c1, le_of_eq c2, le_of_eq c3.symm, by omega, c9⟩
  obtain ⟨hT1, hT2, hT3, hT4, hT5⟩ := hT
  refine ⟨?_, ?_, ?_, ?_, ?_⟩
  · exact dataInv_congr M act t _ hbf.1 hbf.2.1 hbf.2.2.1 hbf.2.2.2.1
      hbf.2.2.2.2.2.2.1 hT1
  · rw [hbf.2.2.1]
    exact hT2
  · rw [hbf.2.2.2.1]
    exact hT3
  · rw [hbf.2.2.2.2.2.1]
    omega
  · intro h
    rw [hbf.1]
    exact hT5 h

theorem chart_iter_walk (all_txs : List TxRow) (all_dates : List ℤ) (M : ℕ)
    (act : ℕ → Bool) (final_date : ℤ) (hsorted : ledger_sorted all_txs)
    (h2040 : final_date < date_2040_01_01)
    (hdates : all_dates = all_txs.map TxRow.date) (s : ChartState)
    (hw : WalkInv all_txs s) (hchk : s.checking_date ≤ final_date) :
    WalkInv all_txs (chart_iter all_txs all_dates M act final_date s).1 ∧
    walk_measure all_txs final_date
        (chart_iter all_txs all_dates M act final_date s).1 <
      walk_measure all_txs final_date s := by
  rw [chart_iter_fst]
  set t := chart_iter_body all_txs all_dates M act s with ht
  have hbf := chart_budget_fields t
  have hT : WalkInv all_txs t ∧
      walk_measure all_txs final_date t < walk_measure all_txs final_date s := by
    rw [ht]
    unfold chart_iter_body
    split_ifs with hc
    · obtain ⟨hdn, hdeq⟩ := walk_pending all_txs all_dates hsorted hdates s hw hc
      obtain ⟨w1, w2, _⟩ := chart_tx_day_walk all_txs M act final_date hsorted h2040 s
        hw hchk hdn hdeq
      exact ⟨w1, w2⟩
    · have hc2 : all_dates.contains s.checking_date = false := by simpa using hc
      obtain ⟨w1, w2, _⟩ := chart_carry_day_walk all_txs all_dates M final_date hdates s
        hw hchk hc2
      exact ⟨w1, w2⟩
  refine ⟨walkInv_congr all_txs t _ hbf.2.2.2.2.2.2.2 hbf.2.2.2.2.2.1
      hbf.2.2.2.2.2.2.1 hT.1, ?_⟩
  rw [walk_measure_congr all_txs final_date t _ hbf.2.2.2.2.2.2.2 hbf.2.2.2.2.2.1]
  exact hT.2

/-! The render loop: termination, exit characterization, and invariants. -/

theorem chart_loop_succ (all_txs : List TxRow) (all_dates : List ℤ) (M : ℕ)
    (act : ℕ → Bool) (final_date : ℤ) (fuel : ℕ) (s : ChartState) :
    chart_loop all_txs all_dates M act final_date (fuel + 1) s =
      if (chart_iter all_txs all_dates M act final_date s).2 = true
      then some (chart_iter all_txs all_dates M act final_date s).1
      else chart_loop all_txs all_dates M act final_date fuel
        (chart_iter all_txs all_dates M act final_date s).1 := rfl

theorem chart_loop_spec (all_txs : List TxRow) (all_dates : List ℤ) (M : ℕ)
    (act : ℕ → Bool) (final_date : ℤ) (hsorted : ledger_sorted all_txs)
    (h2040 : final_date < date_2040_01_01)
    (hdates : all_dates = all_txs.map TxRow.date) :
    ∀ (fuel : ℕ) (s : ChartState), WalkInv all_txs s → DataInv M act s →
      s.checking_date ≤ final_date →
      walk_measure all_txs final_date s < fuel →
      ∃ s1, chart_loop all_txs all_dates M act final_date fuel s = some s1 ∧
        DataInv M act s1 ∧
        s1.checking_date ≤ final_date + 1 ∧
        (s1.checking_date = final_date + 1 ∨
          s1.date_labels.getLast? = some s1.checking_date) ∧
        (s.to_loop = none → s1.checking_date = final_date + 1 ∧ s1.to_loop = none) ∧
        s1.lowest_balance ≤ s.lowest_balance ∧
        s.highest_balance ≤ s1.highest_balance ∧
        (s.datasets.length = M → s1.datasets.length = M) := by
  intro fuel
  induction fuel with
  | zero =>
    intro s _ _ _ hm
    omega
  | succ fuel ih =>
    intro s hw hd hchk hm
    obtain ⟨hd1, hlo1, hhi1, hle1, hlen1⟩ :=
      chart_iter_data all_txs all_dates M act final_date s hd hchk
    rcases hbr : (chart_iter all_txs all_dates M act final_date s).2 with _ | _
    · -- the iteration does not break: recurse on the smaller measure
      obtain ⟨hw2, hm2⟩ := chart_iter_walk all_txs all_dates M act final_date hsorted
        h2040 hdates s hw hchk
      have hcont := chart_iter_cont all_txs all_dates M act final_date s hbr
      have hstep : chart_loop all_txs all_dates M act final_date (fuel + 1) s =
          chart_loop all_txs all_dates M act final_date fuel
            (chart_iter all_txs all_dates M act final_date s).1 := by
        rw [chart_loop_succ, hbr]
        simp
      obtain ⟨s1, hs1, p1, p2, p3, p4, p5, p6, p7⟩ :=
        ih (chart_iter all_txs all_dates M act final_date s).1 hw2 hd1
          (by omega) (by omega)
      refine ⟨s1, by rw [hstep]; exact hs1, p1, p2, p3, ?_, le_trans p5 hlo1,
        le_trans hhi1 p6, fun h => p7 (hlen1 h)⟩
      intro hn
      exact p4 (chart_iter_none all_txs all_dates M act final_date s hn)
    · -- the iteration breaks: the loop returns this state
      have hbrk := chart_iter_break all_txs all_dates M act final_date s hbr
      refine ⟨(chart_iter all_txs all_dates M act final_date s).1, ?_, hd1, hle1,
        ?_, ?_, hlo1, hhi1, hlen1⟩
      · rw [chart_loop_succ, hbr]
        simp
      · rcases hbrk with h | h
        · exact Or.inl (by omega)
        · exact Or.inr h
      · intro hn
        have := chart_iter_none_break all_txs all_dates M act final_date s hn hbr
        exact ⟨by omega, chart_iter_none all_txs all_dates M act final_date s hn⟩

theorem chart_init_walkInv (all_txs : List TxRow) (t : Option ℚ) :
    WalkInv all_txs (chart_init_state all_txs t) := by
  refine ⟨?_, ?_, ?_, ?_, ?_⟩ <;> dsimp only [chart_init_state]
  · exact Nat.zero_le _
  · intro j hj
    exact absurd hj (by omega)
  · intro _
    exact le_refl _
  · intro hko
    exact absurd hko (by simp)
  · intro _ j hj
    exact absurd hj (by omega)

theorem chart_init_dataInv (M : ℕ) (act : ℕ → Bool) (all_txs : List TxRow)
    (t : Option ℚ) : DataInv M act (chart_init_state all_txs t) := by
  refine ⟨Or.inl ⟨rfl, rfl⟩, ?_, le_refl 0, le_refl 0, ?_⟩
  · intro hne
    exact absurd rfl hne
  · intro i _ _ p hp
    simp [chart_init_state] at hp

theorem chart_iter_first_length (all_txs : List TxRow) (all_dates : List ℤ) (M : ℕ)
    (act : ℕ → Bool) (final_date : ℤ) (s : ChartState) (hd : DataInv M act s)
    (hcont : all_dates.contains s.checking_date = true) :
    (chart_iter all_txs all_dates M act final_date s).1.datasets.length = M := by
  rw [chart_iter_fst, (chart_budget_fields _).1]
  unfold chart_iter_body
  rw [if_pos hcont]
  exact (chart_tx_day_data all_txs M act s hd).2.1

theorem chart_first_le_final (all_txs : List TxRow) (hne : all_txs ≠ [])
    (hsorted : ledger_sorted all_txs) :
    chart_first_date all_txs ≤ chart_final_date all_txs := by
  have hlen : 0 < all_txs.length := List.length_pos.mpr hne
  exact sorted_le_final all_txs hsorted _ (getD_mem all_txs 0 defaultRow hlen)

theorem chart_loop_state_spec (all_txs : List TxRow) (all_dates : List ℤ) (M : ℕ)
    (act : ℕ → Bool) (lr : Option ℚ) (hne : all_txs ≠ [])
    (hsorted : ledger_sorted all_txs)
    (h2040 : chart_final_date all_txs < date_2040_01_01)
    (hdates : all_dates = all_txs.map TxRow.date) :
    ∃ s1, chart_loop all_txs all_dates M act (chart_final_date all_txs)
          (chart_fuel all_txs) (chart_init_state all_txs
            ((loop_remaining_update (chart_total_loop all_txs)
              (render_size (chart_total_loop all_txs)) lr).map
              (fun val => chart_total_loop all_txs - val))) = some s1 ∧
      chart_loop_state all_txs all_dates M act lr = s1 ∧
      DataInv M act s1 ∧
      s1.datasets.length = M ∧
      s1.checking_date ≤ chart_final_date all_txs + 1 ∧
      (s1.checking_date = chart_final_date all_txs + 1 ∨
        s1.date_labels.getLast? = some s1.checking_date) ∧
      (loop_remaining_update (chart_total_loop all_txs)
          (render_size (chart_total_loop all_txs)) lr = none →
        s1.checking_date = chart_final_date all_txs + 1 ∧ s1.to_loop = none) := by
  have hlen : 0 < all_txs.length := List.length_pos.mpr hne
  set final_date := chart_final_date all_txs with hfd
  set t := (loop_remaining_update (chart_total_loop all_txs)
    (render_size (chart_total_loop all_txs)) lr).map
    (fun val => chart_total_loop all_txs - val) with hts
  set s0 := chart_init_state all_txs t with hs0
  have hchk0 : s0.checking_date ≤ final_date := chart_first_le_final all_txs hne hsorted
  have hcont0 : all_dates.contains s0.checking_date = true := by
    have hmem : s0.checking_date ∈ all_txs.map TxRow.date :=
      tx_date_mem_map all_txs 0 hlen
    rw [hdates]
    simpa using hmem
  have hw0 : WalkInv all_txs s0 := chart_init_walkInv all_txs t
  have hd0 : DataInv M act s0 := chart_init_dataInv M act all_txs t
  have hmeas : walk_measure all_txs final_date s0 + 1 = chart_fuel all_txs := by
    rw [hs0, hfd]
    unfold walk_measure chart_fuel chart_init_state
    dsimp only
    omega
  obtain ⟨N, hN⟩ : ∃ N, chart_fuel all_txs = N + 1 :=
    ⟨walk_measure all_txs final_date s0, hmeas.symm⟩
  have hNval : N = walk_measure all_txs final_date s0 := by omega
  rw [hN, chart_loop_succ]
  obtain ⟨hd1, hlo1, hhi1, hle1, _⟩ :=
    chart_iter_data all_txs all_dates M act final_date s0 hd0 hchk0
  have hfl := chart_iter_first_length all_txs all_dates M act final_date s0 hd0 hcont0
  have hgoal_state : chart_loop_state all_txs all_dates M act lr =
      (chart_loop all_txs all_dates M act final_date (chart_fuel all_txs) s0).getD s0 := rfl
  rcases hbr : (chart_iter all_txs all_dates M act final_date s0).2 with _ | _
  · -- continue after the first day, then run the loop lemma
    obtain ⟨hw2, hm2⟩ := chart_iter_walk all_txs all_dates M act final_date hsorted
      h2040 hdates s0 hw0 hchk0
    have hcont := chart_iter_cont all_txs all_dates M act final_date s0 hbr
    obtain ⟨s1, hs1, p1, p2, p3, p4, p5, p6, p7⟩ :=
      chart_loop_spec all_txs all_dates M act final_date hsorted h2040 hdates N
        (chart_iter all_txs all_dates M act final_date s0).1 hw2 hd1
        (by omega) (by omega)
    refine ⟨s1, ?_, ?_, p1, p7 hfl, p2, p3, ?_⟩
    · simp only [Bool.false_eq_true, if_false]
      exact hs1
    · rw [hgoal_state, hN, chart_loop_succ]
      simp only [hbr, Bool.false_eq_true, if_false]
      rw [hs1]
      rfl
    · intro hnone
      have hs0none : s0.to_loop = none := by
        rw [hs0]
        unfold chart_init_state
        dsimp only
        rw [hts, hnone]
        rfl
      exact p4 (chart_iter_none all_txs all_dates M act final_date s0 hs0none)
  · -- the very first day already breaks the loop
    have hbrk := chart_iter_break all_txs all_dates M act final_date s0 hbr
    refine ⟨(chart_iter all_txs all_dates M act final_date s0).1, ?_, ?_, hd1, hfl,
      hle1, ?_, ?_⟩
    · simp
    · rw [hgoal_state, hN, chart_loop_succ]
      simp only [hbr, if_true]
      rfl
    · rcases hbrk with h | h
      · exact Or.inl (by omega)
      · exact Or.inr h
    · intro hnone
      have hs0none : s0.to_loop = none := by
        rw [hs0]
        unfold chart_init_state
        dsimp only
        rw [hts, hnone]
        rfl
      have := chart_iter_none_break all_txs all_dates M act final_date s0 hs0none hbr
      exact ⟨by omega, chart_iter_none all_txs all_dates M act final_date s0 hs0none⟩

/-! Unconditional extrema monotonicity of the loop (for the zero-containment
claim). -/

theorem chart_tx_day_extrema (all_txs : List TxRow) (M : ℕ) (act : ℕ → Bool)
    (s : ChartState) :
    (chart_tx_day all_txs M act s).lowest_balance ≤ s.lowest_balance ∧
    s.highest_balance ≤ (chart_tx_day all_txs M act s).highest_balance := by
  unfold chart_tx_day
  dsimp only
  have hmono := method_fold_extrema_mono act
    (all_txs.getD s.data_num defaultRow).balances s.to_add_again s.current_axis M
    (s.datasets, [], s.lowest_balance, s.highest_balance)
  split_ifs <;> exact hmono

theorem chart_iter_extrema (all_txs : List TxRow) (all_dates : List ℤ) (M : ℕ)
    (act : ℕ → Bool) (final_date : ℤ) (s : ChartState) :
    (chart_iter all_txs all_dates M act final_date s).1.lowest_balance ≤
      s.lowest_balance ∧
    s.highest_balance ≤
      (chart_iter all_txs all_dates M act final_date s).1.highest_balance := by
  rw [chart_iter_fst]
  have hbf := chart_budget_fields (chart_iter_body all_txs all_dates M act s)
  rw [hbf.2.2.1, hbf.2.2.2.1]
  unfold chart_iter_body
  split_ifs
  · exact chart_tx_day_extrema all_txs M act s
  · exact ⟨le_refl _, le_refl _⟩

theorem chart_loop_extrema (all_txs : List TxRow) (all_dates : List ℤ) (M : ℕ)
    (act : ℕ → Bool) (final_date : ℤ) :
    ∀ (fuel : ℕ) (s s1 : ChartState),
      chart_loop all_txs all_dates M act final_date fuel s = some s1 →
      s1.lowest_balance ≤ s.lowest_balance ∧
      s.highest_balance ≤ s1.highest_balance := by
  intro fuel
  induction fuel with
  | zero =>
    intro s s1 h
    exact absurd h (by simp [chart_loop])
  | succ fuel ih =>
    intro s s1 h
    rw [chart_loop_succ] at h
    have hx := chart_iter_extrema all_txs all_dates M act final_date s
    split_ifs at h with hb
    · cases h
      exact hx
    · have := ih _ s1 h
      exact ⟨le_trans this.1 hx.1, le_trans hx.2 this.2⟩

theorem chart_loop_state_extrema (all_txs : List TxRow) (all_dates : List ℤ)
    (M : ℕ) (act : ℕ → Bool) (lr : Option ℚ) :
    (chart_loop_state all_txs all_dates M act lr).lowest_balance ≤ 0 ∧
    0 ≤ (chart_loop_state all_txs all_dates M act lr).highest_balance := by
  unfold chart_loop_state
  dsimp only
  rcases h : chart_loop all_txs all_dates M act (chart_final_date all_txs)
      (chart_fuel all_txs) (chart_init_state all_txs
        ((loop_remaining_update (chart_total_loop all_txs)
          (render_size (chart_total_loop all_txs)) lr).map
          (fun val => chart_total_loop all_txs - val))) with _ | s1
  · simp only [Option.getD_none]
    exact ⟨le_refl 0, le_refl 0⟩
  · simp only [Option.getD_some]
    exact chart_loop_extrema all_txs all_dates M act (chart_final_date all_txs)
      (chart_fuel all_txs) _ s1 h

theorem pad_lowest_nonpos (x : ℚ) (h : x ≤ 0) : pad_lowest x ≤ 0 := by
  unfold pad_lowest
  linarith

theorem pad_highest_nonneg (x : ℚ) (h : 0 ≤ x) : 0 ≤ pad_highest x := by
  unfold pad_highest
  linarith

/-- C10: on every draw the pre-padding extrema contain zero (the trackers
start at 0.0 and only widen), and the 10 percent padding preserves this, so
the value axis always includes zero. -/
theorem c10_zero_containment (all_txs : List TxRow) (all_dates : List ℤ) (M : ℕ)
    (act : ℕ → Bool) (lr : Option ℚ) :
    (chart_loop_state all_txs all_dates M act lr).lowest_balance ≤ 0 ∧
    0 ≤ (chart_loop_state all_txs all_dates M act lr).highest_balance ∧
    (chart_ui_core all_txs all_dates M act lr).lowest_balance ≤ 0 ∧
    0 ≤ (chart_ui_core all_txs all_dates M act lr).highest_balance := by
  obtain ⟨h1, h2⟩ := chart_loop_state_extrema all_txs all_dates M act lr
  refine ⟨h1, h2, ?_, ?_⟩ <;> unfold chart_ui_core <;> split_ifs <;> dsimp only
  · exact pad_lowest_nonpos 0 (le_refl 0)
  · exact pad_lowest_nonpos _ h1
  · exact pad_highest_nonneg 0 (le_refl 0)
  · exact pad_highest_nonneg _ h2

/-- C2 (counterexample): the padded low bound of a negative lowest balance is
not strictly smaller: pad_lowest (-10) = -9, which is greater than -10, so
the claim that the padding makes a negative low bound more negative is false. -/
theorem c2_counterexample :
    pad_lowest (-10) = -9 ∧ ¬ (pad_lowest (-10) < -10) := by
  norm_num [pad_lowest]

/-- C2 (amended): the padding transforms the bounds exactly as
high + high*0.1 and low - low*0.1 (scaling with magnitude and sign, not
absolute value), but for every negative low bound this makes the bound
strictly larger (closer to zero), not more negative. -/
theorem c2_amended_padding :
    (∀ x : ℚ, pad_highest x = x + x * (10 / 100)) ∧
    (∀ x : ℚ, pad_lowest x = x - x * (10 / 100)) ∧
    (∀ x : ℚ, x < 0 → x < pad_lowest x ∧ pad_lowest x < 0) := by
  refine ⟨fun x => by unfold pad_highest; ring, fun x => by unfold pad_lowest; ring,
    fun x hx => ⟨by unfold pad_lowest; linarith, by unfold pad_lowest; linarith⟩⟩

theorem c2_amended_padding_witness :
    (-10 : ℚ) < 0 ∧ ((-10 : ℚ) < pad_lowest (-10) ∧ pad_lowest (-10) < 0) :=
  ⟨by norm_num, c2_amended_padding.2.2 (-10) (by norm_num)⟩

/-- C3 (counterexample): the host initializes the reveal cursor to None
(ui_handler.rs line 162), not Some(0); moreover the first update from Some(0)
with total_days = 10000 and step = 70 produces Some(9930), an increase, so the
whole Some sequence is not strictly decreasing. -/
theorem c3_counterexample :
    chart_index_init ≠ some 0 ∧
    loop_remaining_update 10000 70 (some 0) = some 9930 ∧
    ¬ ((9930 : ℚ) < 0) := by
  refine ⟨by simp [chart_index_init], by norm_num [loop_remaining_update], by norm_num⟩

/-- C3 (amended): the host variable starts as None (a fresh countdown begins
at Some(0) when the scope is reset); each invocation updates the cursor
exactly by the claimed rule (Some(0) becomes Some(total-step) unless
total ≤ step, Some(v) becomes Some(v-step) while positive, else None); and
with a positive step every Some-to-Some transition after the initial Some(0)
strictly decreases. -/
theorem c3_amended_cursor :
    chart_index_init = none ∧
    (∀ (total rs : ℚ) (o : Option ℚ),
      loop_remaining_update total rs o = cursor_update_spec total rs o) ∧
    (∀ total rs v w : ℚ, 0 < rs → 0 < v →
      loop_remaining_update total rs (some v) = some w → w < v) := by
  refine ⟨rfl, ?_, ?_⟩
  · intro total rs o
    rcases o with _ | v
    · rfl
    · unfold loop_remaining_update cursor_update_spec
      dsimp only
      split_ifs <;> first | rfl | (exfalso; linarith)
  · intro total rs v w hrs hv h
    unfold loop_remaining_update at h
    dsimp only at h
    split_ifs at h with h1 h2 h3 <;>
      first
        | (exfalso; rw [h1] at hv; exact absurd hv (lt_irrefl 0))
        | (have hw := (Option.some.injEq _ _).mp h
           linarith)

theorem c3_amended_cursor_witness :
    ((0 : ℚ) < 70 ∧ (0 : ℚ) < 9930) ∧ (9860 : ℚ) < 9930 :=
  ⟨⟨by norm_num, by norm_num⟩, c3_amended_cursor.2.2 10000 70 9930 9860 (by norm_num)
    (by norm_num) (by norm_num [loop_remaining_update])⟩

/-- C5: the per-cycle step size is a function of total_days alone, equal to
total_days times the claimed tier factor (strict upper comparisons, flat 1 for
50 to 200 days), and in particular total_days = 10000 gives step 70 and a
first-cycle cursor of Some(9930). -/
theorem c5_render_size_tiers :
    (∀ t : ℚ, render_size t = render_size_spec t) ∧
    render_size 10000 = 70 ∧
    loop_remaining_update 10000 (render_size 10000) (some 0) = some 9930 := by
  refine ⟨?_, ?_, ?_⟩
  · intro t
    unfold render_size render_size_spec
    by_cases c1 : 4000 < t
    · rw [if_pos c1, if_pos c1]
      ring
    rw [if_neg c1, if_neg c1]
    by_cases c2 : 2000 < t
    · rw [if_pos c2, if_pos (show 2000 < t ∧ t ≤ 4000 from ⟨c2, by linarith⟩)]
      ring
    rw [if_neg c2, if_neg (show ¬(2000 < t ∧ t ≤ 4000) from fun hcon => c2 hcon.1)]
    by_cases c3 : 1000 < t
    · rw [if_pos c3, if_pos (show 1000 < t ∧ t ≤ 2000 from ⟨c3, by linarith⟩)]
      ring
    rw [if_neg c3, if_neg (show ¬(1000 < t ∧ t ≤ 2000) from fun hcon => c3 hcon.1)]
    by_cases c4 : 500 < t
    · rw [if_pos c4, if_pos (show 500 < t ∧ t ≤ 1000 from ⟨c4, by linarith⟩)]
      ring
    rw [if_neg c4, if_neg (show ¬(500 < t ∧ t ≤ 1000) from fun hcon => c4 hcon.1)]
    by_cases c5 : 360 < t
    · rw [if_pos c5, if_pos (show 360 < t ∧ t ≤ 500 from ⟨c5, by linarith⟩)]
      ring
    rw [if_neg c5, if_neg (show ¬(360 < t ∧ t ≤ 500) from fun hcon => c5 hcon.1)]
    by_cases c6 : 200 < t
    · rw [if_pos c6, if_pos (show 200 < t ∧ t ≤ 360 from ⟨c6, by linarith⟩)]
      ring
    rw [if_neg c6, if_neg (show ¬(200 < t ∧ t ≤ 360) from fun hcon => c6 hcon.1)]
    by_cases c7 : t < 50
    · rw [if_pos c7, if_pos c7]
      ring
    rw [if_neg c7, if_neg c7]
  · norm_num [render_size]
  · norm_num [render_size, loop_remaining_update]

/-- C4: with the cursor already None, an invocation (any snapshot) rewrites it
as None again and never breaks the walk early: the full curve is drawn, the
walk ending one day past the final date; and the scope-change reset (modelled
from the spec) re-arms the animation with Some(0). -/
theorem c4_cursor_none_persists (all_txs : List TxRow) (all_dates : List ℤ) (M : ℕ)
    (act : ℕ → Bool) (hne : all_txs ≠ []) (hsorted : ledger_sorted all_txs)
    (h2040 : chart_final_date all_txs < date_2040_01_01)
    (hdates : all_dates = all_txs.map TxRow.date) :
    (chart_ui_core all_txs all_dates M act none).loop_remaining = none ∧
    scope_change_cursor_reset = some 0 ∧
    ∃ s1, chart_loop_state all_txs all_dates M act none = s1 ∧
      s1.checking_date = chart_final_date all_txs + 1 ∧ s1.to_loop = none := by
  obtain ⟨s1, hloop, hstate, hd1, hlen, hle, hexit, hnone⟩ :=
    chart_loop_state_spec all_txs all_dates M act none hne hsorted h2040 hdates
  obtain ⟨hck, htl⟩ := hnone rfl
  refine ⟨?_, rfl, s1, hstate, hck, htl⟩
  unfold chart_ui_core
  split_ifs <;> rfl

theorem c4_cursor_none_persists_witness :
    (chart_ui_core [⟨0, [5]⟩] [0] 1 (fun _ => true) none).loop_remaining = none ∧
    scope_change_cursor_reset = some 0 := by
  have h := c4_cursor_none_persists [⟨0, [5]⟩] [0] 1 (fun _ => true)
    (by simp) (by simp [ledger_sorted])
    (by norm_num [chart_final_date, defaultRow, date_2040_01_01]) (by simp)
  exact ⟨h.1, h.2.1⟩

/-- C9: for every non-empty well-formed snapshot the day walk terminates
within the chosen fuel, and it ends either exactly one day past the last
transaction date, or earlier on budget exhaustion, in which case the last
date label has been replaced by the last simulated day reached. -/
theorem c9_termination (all_txs : List TxRow) (all_dates : List ℤ) (M : ℕ)
    (act : ℕ → Bool) (lr : Option ℚ) (hne : all_txs ≠ [])
    (hsorted : ledger_sorted all_txs)
    (h2040 : chart_final_date all_txs < date_2040_01_01)
    (hdates : all_dates = all_txs.map TxRow.date) :
    ∃ s1, chart_loop all_txs all_dates M act (chart_final_date all_txs)
        (chart_fuel all_txs) (chart_init_state all_txs
          ((loop_remaining_update (chart_total_loop all_txs)
            (render_size (chart_total_loop all_txs)) lr).map
            (fun val => chart_total_loop all_txs - val))) = some s1 ∧
      chart_loop_state all_txs all_dates M act lr = s1 ∧
      s1.checking_date ≤ chart_final_date all_txs + 1 ∧
      (s1.checking_date = chart_final_date all_txs + 1 ∨
        s1.date_labels.getLast? = some s1.checking_date) := by
  obtain ⟨s1, hloop, hstate, _, _, hle, hexit, _⟩ :=
    chart_loop_state_spec all_txs all_dates M act lr hne hsorted h2040 hdates
  exact ⟨s1, hloop, hstate, hle, hexit⟩

theorem c9_termination_witness :
    ∃ s1, chart_loop [⟨0, [5]⟩] [0] 1 (fun _ => true) (chart_final_date [⟨0, [5]⟩])
        (chart_fuel [⟨0, [5]⟩]) (chart_init_state [⟨0, [5]⟩]
          ((loop_remaining_update (chart_total_loop [⟨0, [5]⟩])
            (render_size (chart_total_loop [⟨0, [5]⟩])) none).map
            (fun val => chart_total_loop [⟨0, [5]⟩] - val))) = some s1 ∧
      chart_loop_state [⟨0, [5]⟩] [0] 1 (fun _ => true) none = s1 ∧
      s1.checking_date ≤ chart_final_date [⟨0, [5]⟩] + 1 ∧
      (s1.checking_date = chart_final_date [⟨0, [5]⟩] + 1 ∨
        s1.date_labels.getLast? = some s1.checking_date) :=
  c9_termination [⟨0, [5]⟩] [0] 1 (fun _ => true) none (by simp)
    (by simp [ledger_sorted])
    (by norm_num [chart_final_date, defaultRow, date_2040_01_01]) (by simp)

/-- C8: every draw produces per-method point vectors of equal length, one per
roster method, and the empty ledger seeds every method with the default (0,0)
point so per-method indexing stays in bounds. -/
theorem c8_equal_lengths (all_txs : List TxRow) (all_dates : List ℤ) (M : ℕ)
    (act : ℕ → Bool) (lr : Option ℚ) (hsorted : ledger_sorted all_txs)
    (h2040 : chart_final_date all_txs < date_2040_01_01)
    (hdates : all_dates = all_txs.map TxRow.date) :
    (chart_ui_core all_txs all_dates M act lr).datasets.length = M ∧
    (∃ L, ∀ i, i < M →
      ((chart_ui_core all_txs all_dates M act lr).datasets.getD i []).length = L) ∧
    (all_txs = [] →
      (chart_ui_core all_txs all_dates M act lr).datasets =
        List.replicate M [(0, 0)]) := by
  by_cases hne : all_txs = []
  · have he : all_txs.isEmpty = true := by simp [hne]
    unfold chart_ui_core
    rw [if_pos he]
    refine ⟨by simp, ⟨1, ?_⟩, fun _ => rfl⟩
    intro i hi
    simp [List.getD_eq_getElem?_getD, List.getElem?_replicate, hi]
  · obtain ⟨s1, hloop, hstate, hd1, hlen, _, _, _⟩ :=
      chart_loop_state_spec all_txs all_dates M act lr hne hsorted h2040 hdates
    have he : ¬ all_txs.isEmpty = true := by simp [hne]
    unfold chart_ui_core
    rw [if_neg he]
    dsimp only
    rw [hstate]
    refine ⟨hlen, ?_, fun h => absurd h hne⟩
    rcases hd1.shape with ⟨hnil, _⟩ | ⟨_, L, _, hL⟩
    · refine ⟨1, fun i hi => ?_⟩
      rw [hnil] at hlen
      simp at hlen
      omega
    · exact ⟨L, hL⟩

theorem c8_equal_lengths_witness :
    (chart_ui_core [⟨0, [5]⟩] [0] 1 (fun _ => true) none).datasets.length = 1 ∧
    (∃ L, ∀ i, i < 1 →
      ((chart_ui_core [⟨0, [5]⟩] [0] 1 (fun _ => true) none).datasets.getD i
        []).length = L) ∧
    ([⟨0, [5]⟩] = ([] : List TxRow) →
      (chart_ui_core [⟨0, [5]⟩] [0] 1 (fun _ => true) none).datasets =
        List.replicate 1 [(0, 0)]) :=
  c8_equal_lengths [⟨0, [5]⟩] [0] 1 (fun _ => true) none (by simp [ledger_sorted])
    (by norm_num [chart_final_date, defaultRow, date_2040_01_01]) (by simp)

/-! When no activated balance is negative, the tracked lowest stays zero. -/

theorem chart_tx_day_lo_zero (all_txs : List TxRow) (M : ℕ) (act : ℕ → Bool)
    (s : ChartState)
    (hpos : ∀ r ∈ all_txs, ∀ i, act i = true → 0 ≤ r.balances.getD i 0)
    (hlo : s.lowest_balance = 0) :
    (chart_tx_day all_txs M act s).lowest_balance = 0 := by
  have hcb : ∀ i, i < M → act i = true →
      (s.datasets, ([] : List ℚ), s.lowest_balance, s.highest_balance).2.2.1 ≤
        (all_txs.getD s.data_num defaultRow).balances.getD i 0 := by
    intro i _ ha
    by_cases hd : s.data_num < all_txs.length
    · have := hpos _ (getD_mem all_txs s.data_num defaultRow hd) i ha
      dsimp only
      rw [hlo]
      exact this
    · rw [List.getD_eq_default all_txs defaultRow (by omega)]
      dsimp only
      rw [hlo]
      norm_num [defaultRow]
  have h := method_fold_lo_eq act (all_txs.getD s.data_num defaultRow).balances
    s.to_add_again s.current_axis M
    (s.datasets, [], s.lowest_balance, s.highest_balance) hcb
  unfold chart_tx_day
  dsimp only
  split_ifs <;> exact h.trans hlo

theorem chart_iter_lo_zero (all_txs : List TxRow) (all_dates : List ℤ) (M : ℕ)
    (act : ℕ → Bool) (final_date : ℤ) (s : ChartState)
    (hpos : ∀ r ∈ all_txs, ∀ i, act i = true → 0 ≤ r.balances.getD i 0)
    (hlo : s.lowest_balance = 0) :
    (chart_iter all_txs all_dates M act final_date s).1.lowest_balance = 0 := by
  rw [chart_iter_fst, (chart_budget_fields _).2.2.1]
  unfold chart_iter_body
  split_ifs
  · exact chart_tx_day_lo_zero all_txs M act s hpos hlo
  · exact hlo

theorem chart_loop_lo_zero (all_txs : List TxRow) (all_dates : List ℤ) (M : ℕ)
    (act : ℕ → Bool) (final_date : ℤ)
    (hpos : ∀ r ∈ all_txs, ∀ i, act i = true → 0 ≤ r.balances.getD i 0) :
    ∀ (fuel : ℕ) (s s1 : ChartState),
      chart_loop all_txs all_dates M act final_date fuel s = some s1 →
      s.lowest_balance = 0 → s1.lowest_balance = 0 := by
  intro fuel
  induction fuel with
  | zero =>
    intro s s1 h
    exact absurd h (by simp [chart_loop])
  | succ fuel ih =>
    intro s s1 h hlo
    rw [chart_loop_succ] at h
    have hx := chart_iter_lo_zero all_txs all_dates M act final_date s hpos hlo
    split_ifs at h with hb
    · cases h
      exact hx
    · exact ih _ s1 h hx

theorem pad_highest_ge (x : ℚ) (h : 0 ≤ x) : x ≤ pad_highest x := by
  unfold pad_highest
  linarith

/-- C1 (counterexample): with one activated method whose only balance is
-100, the draw tracks lowest = -100 but publishes the padded low bound -90,
which is above the rendered value -100: the claimed containment
low_bound ≤ value fails. -/
theorem c1_counterexample :
    (chart_ui_core [⟨0, [-100]⟩] [0] 1 (fun _ => true) none).datasets.getD 0 [] =
        [(0, -100)] ∧
    (chart_ui_core [⟨0, [-100]⟩] [0] 1 (fun _ => true) none).lowest_balance = -90 ∧
    ¬ ((chart_ui_core [⟨0, [-100]⟩] [0] 1 (fun _ => true) none).lowest_balance ≤
        -100) := by
  refine ⟨?_, ?_, ?_⟩ <;>
    norm_num [chart_ui_core, chart_loop_state, chart_total_loop, chart_first_date,
      chart_final_date, chart_fuel, chart_init_state, render_size,
      loop_remaining_update, chart_loop, chart_iter, chart_iter_body, chart_tx_day,
      chart_carry_day, chart_budget, method_fold, method_step, extrema_step,
      carry_fold, defaultRow, date_2040_01_01, pad_lowest, List.range_succ]

/-- C1 (amended): after padding, every rendered value of an activated method
is at most the padded high bound, for every draw, negative balances included;
and provided no activated balance is negative (so the tracked minimum is 0,
the only case in which the published low bound sits at or below all values),
the padded low bound is also at most every rendered value. For a negative
activated balance the low containment fails, as the counterexample shows. -/
theorem c1_amended_bounds (all_txs : List TxRow) (all_dates : List ℤ) (M : ℕ)
    (act : ℕ → Bool) (lr : Option ℚ) (hsorted : ledger_sorted all_txs)
    (h2040 : chart_final_date all_txs < date_2040_01_01)
    (hdates : all_dates = all_txs.map TxRow.date) :
    ∀ i, i < M → act i = true →
      ∀ p ∈ (chart_ui_core all_txs all_dates M act lr).datasets.getD i [],
        p.2 ≤ (chart_ui_core all_txs all_dates M act lr).highest_balance ∧
        ((∀ r ∈ all_txs, ∀ j, act j = true → 0 ≤ r.balances.getD j 0) →
          (chart_ui_core all_txs all_dates M act lr).lowest_balance ≤ p.2) := by
  by_cases hne : all_txs = []
  · have he : all_txs.isEmpty = true := by simp [hne]
    unfold chart_ui_core
    rw [if_pos he]
    intro i hi ha p hp
    dsimp only at hp ⊢
    rw [List.getD_eq_getElem?_getD, List.getElem?_replicate, if_pos hi] at hp
    simp only [Option.getD_some, List.mem_singleton] at hp
    rw [hp]
    refine ⟨by norm_num [pad_highest], fun _ => by norm_num [pad_lowest]⟩
  · obtain ⟨s1, hloop, hstate, hd1, hlen, _, _, _⟩ :=
      chart_loop_state_spec all_txs all_dates M act lr hne hsorted h2040 hdates
    have he : ¬ all_txs.isEmpty = true := by simp [hne]
    unfold chart_ui_core
    rw [if_neg he]
    dsimp only
    rw [hstate]
    intro i hi ha p hp
    obtain ⟨hr1, hr2⟩ := hd1.ranged i hi ha p hp
    constructor
    · exact le_trans hr2 (pad_highest_ge _ hd1.hi_nonneg)
    · intro hpos
      have hlo1 : s1.lowest_balance = 0 := by
        refine chart_loop_lo_zero all_txs all_dates M act (chart_final_date all_txs)
          hpos (chart_fuel all_txs) _ s1 hloop ?_
        rfl
      rw [hlo1] at hr1 ⊢
      calc pad_lowest 0 = 0 := by norm_num [pad_lowest]
        _ ≤ p.2 := hr1

theorem c1_amended_bounds_witness :
    (-100 : ℚ) ≤
      (chart_ui_core [⟨0, [-100]⟩] [0] 1 (fun _ => true) none).highest_balance ∧
    (5 : ℚ) ≤ (chart_ui_core [⟨0, [5]⟩] [0] 1 (fun _ => true) none).highest_balance ∧
    (chart_ui_core [⟨0, [5]⟩] [0] 1 (fun _ => true) none).lowest_balance ≤ 5 := by
  have hmem1 : ((0 : ℚ), (-100 : ℚ)) ∈
      (chart_ui_core [⟨0, [-100]⟩] [0] 1 (fun _ => true) none).datasets.getD 0 [] := by
    norm_num [chart_ui_core, chart_loop_state, chart_total_loop, chart_first_date,
      chart_final_date, chart_fuel, chart_init_state, render_size,
      loop_remaining_update, chart_loop, chart_iter, chart_iter_body, chart_tx_day,
      chart_carry_day, chart_budget, method_fold, method_step, extrema_step,
      carry_fold, defaultRow, date_2040_01_01, List.range_succ]
  have hmem2 : ((0 : ℚ), (5 : ℚ)) ∈
      (chart_ui_core [⟨0, [5]⟩] [0] 1 (fun _ => true) none).datasets.getD 0 [] := by
    norm_num [chart_ui_core, chart_loop_state, chart_total_loop, chart_first_date,
      chart_final_date, chart_fuel, chart_init_state, render_size,
      loop_remaining_update, chart_loop, chart_iter, chart_iter_body, chart_tx_day,
      chart_carry_day, chart_budget, method_fold, method_step, extrema_step,
      carry_fold, defaultRow, date_2040_01_01, List.range_succ]
  have h1 := c1_amended_bounds [⟨0, [-100]⟩] [0] 1 (fun _ => true) none
    (by simp [ledger_sorted])
    (by norm_num [chart_final_date, defaultRow, date_2040_01_01]) (by simp)
    0 (by omega) rfl ((0 : ℚ), (-100 : ℚ)) hmem1
  have h2 := c1_amended_bounds [⟨0, [5]⟩] [0] 1 (fun _ => true) none
    (by simp [ledger_sorted])
    (by norm_num [chart_final_date, defaultRow, date_2040_01_01]) (by simp)
    0 (by omega) rfl ((0 : ℚ), (5 : ℚ)) hmem2
  refine ⟨h1.1, h2.1, h2.2 ?_⟩
  intro r hr j ha
  simp only [List.mem_singleton] at hr
  subst hr
  rcases j with _ | j <;> norm_num

/-! Branch characterizations used by the coalescing and carry-forward claims. -/

theorem chart_budget_true (s : ChartState) (h : s.to_add_again = true) :
    chart_budget s = (s, false) := by
  unfold chart_budget
  rw [if_neg (by simp [h])]

theorem getLastD_append {α : Type} (l : List α) (a d : α) :
    (l ++ [a]).getLastD d = a := by
  induction l with
  | nil => rfl
  | cons x t ih =>
    rw [List.cons_append]
    cases t with
    | nil => rfl
    | cons y u => simpa using ih

theorem chart_tx_day_noadvance (all_txs : List TxRow) (M : ℕ) (act : ℕ → Bool)
    (s : ChartState) (hn1 : all_txs.length > s.data_num + 1)
    (hd1 : tx_date all_txs (s.data_num + 1) = s.checking_date) :
    chart_tx_day all_txs M act s =
      { s with
          datasets := (method_fold act (all_txs.getD s.data_num defaultRow).balances
            s.to_add_again s.current_axis M
            (s.datasets, [], s.lowest_balance, s.highest_balance)).1,
          last_balances := (method_fold act
            (all_txs.getD s.data_num defaultRow).balances s.to_add_again
            s.current_axis M
            (s.datasets, [], s.lowest_balance, s.highest_balance)).2.1,
          lowest_balance := (method_fold act
            (all_txs.getD s.data_num defaultRow).balances s.to_add_again
            s.current_axis M
            (s.datasets, [], s.lowest_balance, s.highest_balance)).2.2.1,
          highest_balance := (method_fold act
            (all_txs.getD s.data_num defaultRow).balances s.to_add_again
            s.current_axis M
            (s.datasets, [], s.lowest_balance, s.highest_balance)).2.2.2,
          to_add_again := true, data_num := s.data_num + 1 } := by
  unfold chart_tx_day
  dsimp only
  rw [if_pos hn1,
    if_pos (show (all_txs.getD (s.data_num + 1) defaultRow).date = s.checking_date
      from hd1)]

theorem chart_tx_day_advance (all_txs : List TxRow) (M : ℕ) (act : ℕ → Bool)
    (s : ChartState)
    (hne : (if all_txs.length > s.data_num + 1
        then (all_txs.getD (s.data_num + 1) defaultRow).date
        else date_2040_01_01) ≠ s.checking_date) :
    chart_tx_day all_txs M act s =
      { s with
          datasets := (method_fold act (all_txs.getD s.data_num defaultRow).balances
            s.to_add_again s.current_axis M
            (s.datasets, [], s.lowest_balance, s.highest_balance)).1,
          last_balances := (method_fold act
            (all_txs.getD s.data_num defaultRow).balances s.to_add_again
            s.current_axis M
            (s.datasets, [], s.lowest_balance, s.highest_balance)).2.1,
          lowest_balance := (method_fold act
            (all_txs.getD s.data_num defaultRow).balances s.to_add_again
            s.current_axis M
            (s.datasets, [], s.lowest_balance, s.highest_balance)).2.2.1,
          highest_balance := (method_fold act
            (all_txs.getD s.data_num defaultRow).balances s.to_add_again
            s.current_axis M
            (s.datasets, [], s.lowest_balance, s.highest_balance)).2.2.2,
          to_add_again := false, current_axis := s.current_axis + 1,
          checking_date := s.checking_date + 1, data_num := s.data_num + 1 } := by
  unfold chart_tx_day
  dsimp only
  rw [if_neg hne]

/-- C7: on a simulated day absent from the snapshot, the iteration appends to
every method slot one point whose value equals that method's most recently
emitted value (the preceding day's point, recorded in last_balances), and
advances the axis coordinate and the simulated day by exactly one. -/
theorem c7_carry_forward (all_txs : List TxRow) (all_dates : List ℤ) (M : ℕ)
    (act : ℕ → Bool) (final_date : ℤ) (s : ChartState)
    (hnc : all_dates.contains s.checking_date = false)
    (hlen : s.datasets.length = M)
    (hlink : ∀ i, i < M → ∃ p : ℚ × ℚ, (s.datasets.getD i []).getLast? = some p ∧
      p.2 = s.last_balances.getD i 0) :
    (∀ i, i < M → ∃ p : ℚ × ℚ, (s.datasets.getD i []).getLast? = some p ∧
      (chart_iter all_txs all_dates M act final_date s).1.datasets.getD i [] =
        s.datasets.getD i [] ++ [(s.current_axis, p.2)]) ∧
    (chart_iter all_txs all_dates M act final_date s).1.current_axis =
      s.current_axis + 1 ∧
    (chart_iter all_txs all_dates M act final_date s).1.checking_date =
      s.checking_date + 1 := by
  have hbody : chart_iter_body all_txs all_dates M act s = chart_carry_day M s := by
    unfold chart_iter_body
    rw [if_neg (by rw [hnc]; simp)]
  have hbf := chart_budget_fields (chart_iter_body all_txs all_dates M act s)
  obtain ⟨c1, c2, c3⟩ := carry_fold_append s.current_axis s.last_balances M
    s.datasets (le_of_eq hlen.symm)
  refine ⟨?_, ?_, ?_⟩
  · intro i hi
    obtain ⟨p, hp1, hp2⟩ := hlink i hi
    refine ⟨p, hp1, ?_⟩
    rw [chart_iter_fst, hbf.1, hbody]
    show (carry_fold s.current_axis s.last_balances M s.datasets).getD i [] = _
    rw [c3 i hi, hp2]
  · rw [chart_iter_fst, hbf.2.2.2.2.1, hbody]
    rfl
  · rw [chart_iter_fst, hbf.2.2.2.2.2.1, hbody]
    rfl

theorem c7_carry_forward_witness :
    (∀ i, i < 1 → ∃ p : ℚ × ℚ,
      ((⟨[[(0, 5)]], [5], 0, 5, [0, 2], 1, 1, false, 1, none⟩ :
        ChartState).datasets.getD i []).getLast? = some p ∧
      (chart_iter [⟨0, [5]⟩, ⟨2, [7]⟩] [0, 2] 1 (fun _ => true) 2
          ⟨[[(0, 5)]], [5], 0, 5, [0, 2], 1, 1, false, 1, none⟩).1.datasets.getD i [] =
        (⟨[[(0, 5)]], [5], 0, 5, [0, 2], 1, 1, false, 1, none⟩ :
          ChartState).datasets.getD i [] ++ [(1, p.2)]) ∧
    (chart_iter [⟨0, [5]⟩, ⟨2, [7]⟩] [0, 2] 1 (fun _ => true) 2
      ⟨[[(0, 5)]], [5], 0, 5, [0, 2], 1, 1, false, 1, none⟩).1.current_axis = 1 + 1 ∧
    (chart_iter [⟨0, [5]⟩, ⟨2, [7]⟩] [0, 2] 1 (fun _ => true) 2
      ⟨[[(0, 5)]], [5], 0, 5, [0, 2], 1, 1, false, 1, none⟩).1.checking_date =
      1 + 1 :=
  c7_carry_forward [⟨0, [5]⟩, ⟨2, [7]⟩] [0, 2] 1 (fun _ => true) 2
    ⟨[[(0, 5)]], [5], 0, 5, [0, 2], 1, 1, false, 1, none⟩ (by norm_num) rfl
    (by intro i hi
        have hi0 : i = 0 := by omega
        subst hi0
        exact ⟨(0, 5), rfl, rfl⟩)

theorem chart_iter_n_zero (all_txs : List TxRow) (all_dates : List ℤ) (M : ℕ)
    (act : ℕ → Bool) (final_date : ℤ) (s : ChartState) :
    chart_iter_n all_txs all_dates M act final_date 0 s = s := rfl

theorem chart_iter_n_succ (all_txs : List TxRow) (all_dates : List ℤ) (M : ℕ)
    (act : ℕ → Bool) (final_date : ℤ) (n : ℕ) (s : ChartState) :
    chart_iter_n all_txs all_dates M act final_date (n + 1) s =
      chart_iter_n all_txs all_dates M act final_date n
        (chart_iter all_txs all_dates M act final_date s).1 := rfl

theorem chart_iter_n_succ_back (all_txs : List TxRow) (all_dates : List ℤ) (M : ℕ)
    (act : ℕ → Bool) (final_date : ℤ) :
    ∀ (n : ℕ) (s : ChartState),
      chart_iter_n all_txs all_dates M act final_date (n + 1) s =
        (chart_iter all_txs all_dates M act final_date
          (chart_iter_n all_txs all_dates M act final_date n s)).1 := by
  intro n
  induction n with
  | zero => intro s; rfl
  | succ n ih =>
    intro s
    rw [chart_iter_n_succ, ih, chart_iter_n_succ]

theorem c6_first_iter (all_txs : List TxRow) (all_dates : List ℤ) (M : ℕ)
    (act : ℕ → Bool) (final_date : ℤ) (s : ChartState)
    (hcont : all_dates.contains s.checking_date = true)
    (hflag : s.to_add_again = false)
    (hshape : s.datasets = [] ∨ s.datasets.length = M)
    (hn1 : s.data_num + 1 < all_txs.length)
    (hd1 : tx_date all_txs (s.data_num + 1) = s.checking_date)
    (hchk : s.checking_date ≤ final_date) :
    (chart_iter all_txs all_dates M act final_date s).2 = false ∧
    (chart_iter all_txs all_dates M act final_date s).1.datasets.length = M ∧
    (∀ i, i < M →
      (chart_iter all_txs all_dates M act final_date s).1.datasets.getD i [] =
        s.datasets.getD i [] ++
          [(s.current_axis,
            (all_txs.getD s.data_num defaultRow).balances.getD i 0)]) ∧
    (chart_iter all_txs all_dates M act final_date s).1.to_add_again = true ∧
    (chart_iter all_txs all_dates M act final_date s).1.checking_date =
      s.checking_date ∧
    (chart_iter all_txs all_dates M act final_date s).1.current_axis =
      s.current_axis ∧
    (chart_iter all_txs all_dates M act final_date s).1.data_num =
      s.data_num + 1 := by
  set F1 := method_fold act ((all_txs.getD s.data_num defaultRow).balances) false
    s.current_axis M (s.datasets, [], s.lowest_balance, s.highest_balance) with hF1
  have hbody1 : chart_iter_body all_txs all_dates M act s =
      chart_tx_day all_txs M act s := by
    unfold chart_iter_body
    rw [if_pos hcont]
  rw [chart_tx_day_noadvance all_txs M act s (by omega) hd1] at hbody1
  rw [hflag] at hbody1
  obtain ⟨t1, ht1, f1ds, f1ta, f1ck, f1ax, f1dn⟩ :
      ∃ t1, chart_iter_body all_txs all_dates M act s = t1 ∧
        t1.datasets = F1.1 ∧ t1.to_add_again = true ∧
        t1.checking_date = s.checking_date ∧ t1.current_axis = s.current_axis ∧
        t1.data_num = s.data_num + 1 :=
    ⟨_, hbody1, rfl, rfl, rfl, rfl, rfl⟩
  have hb1 : chart_budget t1 = (t1, false) := chart_budget_true t1 f1ta
  have hiter1 : chart_iter all_txs all_dates M act final_date s = (t1, false) := by
    unfold chart_iter
    dsimp only
    rw [ht1, hb1]
    dsimp only
    rw [if_neg (by simp), f1ck,
      if_neg (show ¬ s.checking_date ≥ final_date + 1 from by omega)]
  have hlen1 : F1.1.length = M := by
    rcases hshape with hnil | hlen
    · have hpf : F1 = method_fold act ((all_txs.getD s.data_num defaultRow).balances)
          false s.current_axis M ([], [], s.lowest_balance, s.highest_balance) := by
        rw [hF1, hnil]
      obtain ⟨e1, _⟩ := method_fold_false_push act
        ((all_txs.getD s.data_num defaultRow).balances) s.current_axis M []
        s.lowest_balance s.highest_balance
      rw [hpf, e1]
      simp
    · obtain ⟨a1, _, _, _⟩ := method_fold_false_append act
        ((all_txs.getD s.data_num defaultRow).balances) s.current_axis M s.datasets
        [] s.lowest_balance s.highest_balance (le_of_eq hlen.symm)
      rw [← hF1] at a1
      rw [a1, hlen]
  have hslot1 : ∀ i, i < M → F1.1.getD i [] =
      s.datasets.getD i [] ++
        [(s.current_axis, (all_txs.getD s.data_num defaultRow).balances.getD i 0)] := by
    intro i hi
    rcases hshape with hnil | hlen
    · have hpf : F1 = method_fold act ((all_txs.getD s.data_num defaultRow).balances)
          false s.current_axis M ([], [], s.lowest_balance, s.highest_balance) := by
        rw [hF1, hnil]
      obtain ⟨e1, _⟩ := method_fold_false_push act
        ((all_txs.getD s.data_num defaultRow).balances) s.current_axis M []
        s.lowest_balance s.highest_balance
      rw [hpf, e1, getD_map_range _ _ _ hi, hnil]
      rfl
    · obtain ⟨_, _, a3, _⟩ := method_fold_false_append act
        ((all_txs.getD s.data_num defaultRow).balances) s.current_axis M s.datasets
        [] s.lowest_balance s.highest_balance (le_of_eq hlen.symm)
      rw [← hF1] at a3
      exact a3 i hi
  rw [hiter1]
  refine ⟨rfl, ?_, ?_, f1ta, f1ck, f1ax, f1dn⟩
  · dsimp only
    rw [f1ds, hlen1]
  · intro i hi
    dsimp only
    rw [f1ds]
    exact hslot1 i hi

theorem c6_merge_iter (all_txs : List TxRow) (all_dates : List ℤ) (M : ℕ)
    (act : ℕ → Bool) (final_date : ℤ) (t : ChartState)
    (hcont : all_dates.contains t.checking_date = true)
    (hflag : t.to_add_again = true)
    (hlen : t.datasets.length = M)
    (hn1 : t.data_num + 1 < all_txs.length)
    (hd1 : tx_date all_txs (t.data_num + 1) = t.checking_date)
    (hchk : t.checking_date ≤ final_date) :
    (chart_iter all_txs all_dates M act final_date t).2 = false ∧
    (chart_iter all_txs all_dates M act final_date t).1.datasets.length = M ∧
    (∀ i, i < M →
      (chart_iter all_txs all_dates M act final_date t).1.datasets.getD i [] =
        (t.datasets.getD i []).dropLast ++
          [(((t.datasets.getD i []).getLastD (0, 0)).1,
            (all_txs.getD t.data_num defaultRow).balances.getD i 0)]) ∧
    (chart_iter all_txs all_dates M act final_date t).1.to_add_again = true ∧
    (chart_iter all_txs all_dates M act final_date t).1.checking_date =
      t.checking_date ∧
    (chart_iter all_txs all_dates M act final_date t).1.current_axis =
      t.current_axis ∧
    (chart_iter all_txs all_dates M act final_date t).1.data_num =
      t.data_num + 1 := by
  have hbody : chart_iter_body all_txs all_dates M act t =
      chart_tx_day all_txs M act t := by
    unfold chart_iter_body
    rw [if_pos hcont]
  rw [chart_tx_day_noadvance all_txs M act t (by omega) hd1] at hbody
  rw [hflag] at hbody
  obtain ⟨t1, ht1, f1ds, f1ta, f1ck, f1ax, f1dn⟩ :
      ∃ t1, chart_iter_body all_txs all_dates M act t = t1 ∧
        t1.datasets = (method_fold act
          ((all_txs.getD t.data_num defaultRow).balances) true t.current_axis M
          (t.datasets, [], t.lowest_balance, t.highest_balance)).1 ∧
        t1.to_add_again = true ∧ t1.checking_date = t.checking_date ∧
        t1.current_axis = t.current_axis ∧ t1.data_num = t.data_num + 1 :=
    ⟨_, hbody, rfl, rfl, rfl, rfl, rfl⟩
  have hb1 : chart_budget t1 = (t1, false) := chart_budget_true t1 f1ta
  have hiter : chart_iter all_txs all_dates M act final_date t = (t1, false) := by
    unfold chart_iter
    dsimp only
    rw [ht1, hb1]
    dsimp only
    rw [if_neg (by simp), f1ck,
      if_neg (show ¬ t.checking_date ≥ final_date + 1 from by omega)]
  obtain ⟨m1, m2, m3, m4⟩ := method_fold_true_merge act
    ((all_txs.getD t.data_num defaultRow).balances) t.current_axis M t.datasets
    [] t.lowest_balance t.highest_balance (le_of_eq hlen.symm)
  rw [hiter]
  refine ⟨rfl, ?_, ?_, f1ta, f1ck, f1ax, f1dn⟩
  · dsimp only
    rw [f1ds, m1, hlen]
  · intro i hi
    dsimp only
    rw [f1ds]
    exact m3 i hi

theorem c6_final_iter (all_txs : List TxRow) (all_dates : List ℤ) (M : ℕ)
    (act : ℕ → Bool) (final_date : ℤ) (t : ChartState)
    (hcont : all_dates.contains t.checking_date = true)
    (hflag : t.to_add_again = true)
    (hlen : t.datasets.length = M)
    (hne : (if all_txs.length > t.data_num + 1
        then (all_txs.getD (t.data_num + 1) defaultRow).date
        else date_2040_01_01) ≠ t.checking_date) :
    (∀ i, i < M →
      (chart_iter all_txs all_dates M act final_date t).1.datasets.getD i [] =
        (t.datasets.getD i []).dropLast ++
          [(((t.datasets.getD i []).getLastD (0, 0)).1,
            (all_txs.getD t.data_num defaultRow).balances.getD i 0)]) ∧
    (chart_iter all_txs all_dates M act final_date t).1.current_axis =
      t.current_axis + 1 ∧
    (chart_iter all_txs all_dates M act final_date t).1.checking_date =
      t.checking_date + 1 ∧
    (chart_iter all_txs all_dates M act final_date t).1.to_add_again = false := by
  have hbody : chart_iter_body all_txs all_dates M act t =
      chart_tx_day all_txs M act t := by
    unfold chart_iter_body
    rw [if_pos hcont]
  rw [chart_tx_day_advance all_txs M act t hne] at hbody
  rw [hflag] at hbody
  obtain ⟨t2, ht2, g2ds, g2ax, g2ck, g2ta⟩ :
      ∃ t2, chart_iter_body all_txs all_dates M act t = t2 ∧
        t2.datasets = (method_fold act
          ((all_txs.getD t.data_num defaultRow).balances) true t.current_axis M
          (t.datasets, [], t.lowest_balance, t.highest_balance)).1 ∧
        t2.current_axis = t.current_axis + 1 ∧
        t2.checking_date = t.checking_date + 1 ∧ t2.to_add_again = false :=
    ⟨_, hbody, rfl, rfl, rfl, rfl⟩
  have hbf2 := chart_budget_fields t2
  obtain ⟨m1, m2, m3, m4⟩ := method_fold_true_merge act
    ((all_txs.getD t.data_num defaultRow).balances) t.current_axis M t.datasets
    [] t.lowest_balance t.highest_balance (le_of_eq hlen.symm)
  refine ⟨?_, ?_, ?_, ?_⟩
  · intro i hi
    rw [chart_iter_fst, ht2, hbf2.1, g2ds]
    exact m3 i hi
  · rw [chart_iter_fst, ht2, hbf2.2.2.2.2.1, g2ax]
  · rw [chart_iter_fst, ht2, hbf2.2.2.2.2.2.1, g2ck]
  · rw [chart_iter_fst, ht2, hbf2.2.2.2.2.2.2.1, g2ta]

theorem c6_run_invariant (all_txs : List TxRow) (all_dates : List ℤ) (M : ℕ)
    (act : ℕ → Bool) (final_date : ℤ) (s : ChartState) (K : ℕ)
    (hcont : all_dates.contains s.checking_date = true)
    (hflag : s.to_add_again = false)
    (hshape : s.datasets = [] ∨ s.datasets.length = M)
    (hnK : s.data_num + K ≤ all_txs.length)
    (hrun : ∀ j, 1 ≤ j → j < K → tx_date all_txs (s.data_num + j) = s.checking_date)
    (hchk : s.checking_date ≤ final_date) :
    ∀ j, 1 ≤ j → j ≤ K - 1 →
      (chart_iter all_txs all_dates M act final_date
        (chart_iter_n all_txs all_dates M act final_date (j - 1) s)).2 = false ∧
      (chart_iter_n all_txs all_dates M act final_date j s).datasets.length = M ∧
      (∀ i, i < M →
        (chart_iter_n all_txs all_dates M act final_date j s).datasets.getD i [] =
          s.datasets.getD i [] ++
            [(s.current_axis,
              (all_txs.getD (s.data_num + (j - 1)) defaultRow).balances.getD i 0)]) ∧
      (chart_iter_n all_txs all_dates M act final_date j s).to_add_again = true ∧
      (chart_iter_n all_txs all_dates M act final_date j s).checking_date =
        s.checking_date ∧
      (chart_iter_n all_txs all_dates M act final_date j s).current_axis =
        s.current_axis ∧
      (chart_iter_n all_txs all_dates M act final_date j s).data_num =
        s.data_num + j := by
  intro j hj1
  induction j, hj1 using Nat.le_induction with
  | base =>
    intro hjK
    obtain ⟨e0, e1, e2, e3, e4, e5, e6⟩ := c6_first_iter all_txs all_dates M act
      final_date s hcont hflag hshape (by omega) (hrun 1 le_rfl (by omega)) hchk
    simp only [Nat.sub_self, Nat.add_zero]
    have hA : chart_iter_n all_txs all_dates M act final_date 0 s = s := rfl
    have hB : chart_iter_n all_txs all_dates M act final_date 1 s =
        (chart_iter all_txs all_dates M act final_date s).1 := rfl
    rw [hA, hB]
    exact ⟨e0, e1, e2, e3, e4, e5, e6⟩
  | succ j hj ih =>
    intro hjK
    obtain ⟨i0, i1, i2, i3, i4, i5, i6⟩ := ih (by omega)
    obtain ⟨m0, m1, m2, m3, m4, m5, m6⟩ := c6_merge_iter all_txs all_dates M act
      final_date (chart_iter_n all_txs all_dates M act final_date j s)
      (by rw [i4]; exact hcont) i3 i1 (by rw [i6]; omega)
      (by rw [i6, i4]; exact hrun (j + 1) (by omega) (by omega))
      (by rw [i4]; exact hchk)
    simp only [Nat.add_sub_cancel]
    rw [chart_iter_n_succ_back]
    refine ⟨m0, m1, ?_, m3, ?_, ?_, ?_⟩
    · intro i hi
      rw [m2 i hi, i2 i hi, i6]
      have hdl : (s.datasets.getD i [] ++
          [(s.current_axis,
            (all_txs.getD (s.data_num + (j - 1)) defaultRow).balances.getD i
              0)]).dropLast = s.datasets.getD i [] := by simp
      rw [hdl, getLastD_append]
    · rw [m4]
      exact i4
    · rw [m5]
      exact i5
    · rw [m6, i6]
      omega

/-- C6: when a run of two or more consecutive source rows shares the current
date, the first iteration of the run emits the row without advancing the axis
and raises the merge flag for all methods at once; each following iteration
overwrites the just-emitted point in place, so the whole run of K same-date
rows produces exactly one axis step per method whose value is the last row's
value, after which the axis and the day advance by one and the flag falls. -/
theorem c6_coalescing (all_txs : List TxRow) (all_dates : List ℤ) (M : ℕ)
    (act : ℕ → Bool) (final_date : ℤ) (s : ChartState) (K : ℕ)
    (hK : 2 ≤ K)
    (hcont : all_dates.contains s.checking_date = true)
    (hflag : s.to_add_again = false)
    (hshape : s.datasets = [] ∨ s.datasets.length = M)
    (hnK : s.data_num + K ≤ all_txs.length)
    (hrun : ∀ j, 1 ≤ j → j < K → tx_date all_txs (s.data_num + j) = s.checking_date)
    (hend : (if all_txs.length > s.data_num + K
        then tx_date all_txs (s.data_num + K) else date_2040_01_01) ≠
      s.checking_date)
    (hchk : s.checking_date ≤ final_date) :
    (∀ j, j < K - 1 →
      (chart_iter all_txs all_dates M act final_date
        (chart_iter_n all_txs all_dates M act final_date j s)).2 = false) ∧
    (∀ i, i < M →
      (chart_iter_n all_txs all_dates M act final_date K s).datasets.getD i [] =
        s.datasets.getD i [] ++
          [(s.current_axis,
            (all_txs.getD (s.data_num + (K - 1)) defaultRow).balances.getD i 0)]) ∧
    (chart_iter_n all_txs all_dates M act final_date K s).current_axis =
      s.current_axis + 1 ∧
    (chart_iter_n all_txs all_dates M act final_date K s).checking_date =
      s.checking_date + 1 ∧
    (chart_iter_n all_txs all_dates M act final_date K s).to_add_again = false := by
  have hinv := c6_run_invariant all_txs all_dates M act final_date s K hcont hflag
    hshape hnK hrun hchk
  obtain ⟨i0, i1, i2, i3, i4, i5, i6⟩ := hinv (K - 1) (by omega) le_rfl
  obtain ⟨g1, g2, g3, g4⟩ := c6_final_iter all_txs all_dates M act final_date
    (chart_iter_n all_txs all_dates M act final_date (K - 1) s)
    (by rw [i4]; exact hcont) i3 i1
    (by rw [i6, i4]
        have hKe : s.data_num + (K - 1) + 1 = s.data_num + K := by omega
        rw [hKe]
        exact hend)
  have hKs : K = (K - 1) + 1 := by omega
  have hback : chart_iter_n all_txs all_dates M act final_date K s =
      (chart_iter all_txs all_dates M act final_date
        (chart_iter_n all_txs all_dates M act final_date (K - 1) s)).1 := by
    conv_lhs => rw [hKs]
    rw [chart_iter_n_succ_back]
  refine ⟨?_, ?_, ?_, ?_, ?_⟩
  · intro j hj
    have h := (hinv (j + 1) (by omega) (by omega)).1
    simpa only [Nat.add_sub_cancel] using h
  · intro i hi
    rw [hback, g1 i hi, i2 i hi, i6]
    have hdl : (s.datasets.getD i [] ++
        [(s.current_axis,
          (all_txs.getD (s.data_num + (K - 1 - 1)) defaultRow).balances.getD i
            0)]).dropLast = s.datasets.getD i [] := by simp
    rw [hdl, getLastD_append]
  · rw [hback, g2, i5]
  · rw [hback, g3, i4]
  · rw [hback, g4]

theorem c6_coalescing_witness :
    (chart_iter_n [⟨0, [1]⟩, ⟨0, [2]⟩, ⟨0, [3]⟩, ⟨1, [4]⟩] [0, 0, 0, 1] 1
        (fun _ => true) 1 3
        ⟨[], [], 0, 0, [0, 1], 0, 0, false, 0, none⟩).datasets.getD 0 [] =
      [((0 : ℚ), (3 : ℚ))] ∧
    (chart_iter_n [⟨0, [1]⟩, ⟨0, [2]⟩, ⟨0, [3]⟩, ⟨1, [4]⟩] [0, 0, 0, 1] 1
        (fun _ => true) 1 3
        ⟨[], [], 0, 0, [0, 1], 0, 0, false, 0, none⟩).current_axis = 1 ∧
    (chart_iter_n [⟨0, [1]⟩, ⟨0, [2]⟩, ⟨0, [3]⟩, ⟨1, [4]⟩] [0, 0, 0, 1] 1
        (fun _ => true) 1 3
        ⟨[], [], 0, 0, [0, 1], 0, 0, false, 0, none⟩).checking_date = 1 ∧
    (chart_iter_n [⟨0, [1]⟩, ⟨0, [2]⟩, ⟨0, [3]⟩, ⟨1, [4]⟩] [0, 0, 0, 1] 1
        (fun _ => true) 1 3
        ⟨[], [], 0, 0, [0, 1], 0, 0, false, 0, none⟩).to_add_again = false := by
  have h := c6_coalescing [⟨0, [1]⟩, ⟨0, [2]⟩, ⟨0, [3]⟩, ⟨1, [4]⟩] [0, 0, 0, 1] 1
    (fun _ => true) 1 ⟨[], [], 0, 0, [0, 1], 0, 0, false, 0, none⟩ 3
    (by omega) (by norm_num) rfl (Or.inl rfl) (by norm_num)
    (by intro j h1 h2
        interval_cases j <;> norm_num [tx_date, defaultRow])
    (by norm_num [tx_date, defaultRow, date_2040_01_01]) (by norm_num)
  obtain ⟨-, hslot, hax, hck, hta⟩ := h
  refine ⟨?_, ?_, ?_, ?_⟩
  · have hs := hslot 0 (by omega)
    simpa [defaultRow] using hs
  · simpa using hax
  · simpa using hck
  · exact hta
